import Mathlib

/-!
Verification development for the Glint language implementation
(parser `src/parser/parser.rs`, AST `src/ast.rs`, evaluator
`src/interpreter/interpreter.rs`).

Modelling conventions:
  - `serde_json::Value` is embedded as the mutual inductive `Value` /
    `ValueList` / `Fields` below; JSON numbers carry either a
    mathematical integer (`num`, for numbers stored as `i64`) or a
    rational (`fnum`, idealizing an `f64`-stored number).  Machine `i64`
    arithmetic is modelled as unbounded `Int` arithmetic; the source's
    plain `i64` operations overflow-panic in a debug build and wrap in a
    release build (and `i64::MIN / -1` panics in both), so every general
    theorem about arithmetic results is scoped by the `noOverflow`
    predicate to the domain where the model and the program provably
    coincide under either build profile.  No concrete run below
    approaches the `i64` bounds.  Rust `/` on `i64` truncates toward
    zero, which is `Int.tdiv`.
  - Rust functions that can `panic!` or `unwrap()` a `None` are embedded
    in `Except String`, with `.error` marking an aborted process.
  - Mutually recursive parsers and evaluator functions take an explicit
    fuel argument so that every definition is structurally recursive and
    kernel-reducible; callers pass a fuel that dominates the recursion
    depth (input length plus a margin for the parser, node count of the
    document for the evaluator).  Fuel exhaustion yields a distinct
    model-level error that none of the concrete runs below ever hits.
  - Character classes restrict Rust's Unicode classes to ASCII, which is
    the range all claims exercise.
  - Debug/trace prints of cache keys made by the Rust code on stdout are
    not modelled; program output (`writeln!` of write statements and the
    True/False print of conditionals) goes to the `output` channel and
    diagnostic messages to the `diag` channel of the interpreter state.
-/

namespace Glint

/-! ### Character classes and numeral rendering -/

/-- ASCII decimal digit, as in Rust's `char::is_ascii_digit` and the
`digit1` parser of nom. -/
def isDigitC (c : Char) : Bool := 48 ≤ c.toNat && c.toNat ≤ 57

/-- ASCII letter or digit; restriction of Rust's `char::is_alphanumeric`
to ASCII. -/
def isAlnumC (c : Char) : Bool :=
  (65 ≤ c.toNat && c.toNat ≤ 90) || (97 ≤ c.toNat && c.toNat ≤ 122) ||
    (48 ≤ c.toNat && c.toNat ≤ 57)

/-- Identifier character of the grammar: alphanumeric or underscore. -/
def isIdentC (c : Char) : Bool := isAlnumC c || c = '_'

/-- The four whitespace characters recognized by nom's `multispace0`. -/
def isSpaceC (c : Char) : Bool := c = ' ' || c = '\t' || c = '\r' || c = '\n'

/-- ASCII lower-casing, as used by the source's `tag_no_case`. -/
def lowerC (c : Char) : Char :=
  if 65 ≤ c.toNat ∧ c.toNat ≤ 90 then Char.ofNat (c.toNat + 32) else c

/-- Character for a decimal digit value below ten. -/
def digitChar (d : Nat) : Char := Char.ofNat (48 + d)

/-- Big-endian decimal rendering of a natural number, fuelled so that it
is structurally recursive (the fuel `n + 1` always suffices). -/
def renderNatAux : Nat → Nat → List Char
  | 0, _ => []
  | fuel + 1, n =>
    if n < 10 then [digitChar n]
    else renderNatAux fuel (n / 10) ++ [digitChar (n % 10)]

/-- Decimal rendering of a natural number (Rust `Display` for integers). -/
def renderNat (n : Nat) : List Char := renderNatAux (n + 1) n

/-- Decimal rendering of an integer (Rust `Display` for `i64`). -/
def renderInt (i : Int) : List Char :=
  if i < 0 then '-' :: renderNat i.natAbs else renderNat i.toNat

/-- Numeric value of a digit string, as `i32::from_str` computes it
before its range check. -/
def digitsToNat (cs : List Char) : Nat :=
  cs.foldl (fun a c => 10 * a + (c.toNat - 48)) 0

/-! ### The tagged-document value model (serde_json::Value)

`serde_json::Value` with objects as ordered field lists.  The source
reads objects only through key lookup, so field order is immaterial to
evaluation; it only shows up in the (cosmetic) debug renderings used as
cache keys, which merely have to be deterministic and injective enough.
-/

mutual
inductive Value where
  | null
  | bool (b : Bool)
  | num (n : Int)
  | fnum (q : Rat)
  | str (s : String)
  | arr (xs : ValueList)
  | obj (fs : Fields)
  deriving DecidableEq
inductive ValueList where
  | nil
  | cons (v : Value) (tl : ValueList)
  deriving DecidableEq
inductive Fields where
  | nil
  | cons (k : String) (v : Value) (tl : Fields)
  deriving DecidableEq
end

/-- Lookup of a key in an object's field list (first match). -/
def fget : Fields → String → Option Value
  | .nil, _ => none
  | .cons k v tl, key => if k = key then some v else fget tl key

/-- `Value::get` on a `serde_json::Value`: `None` unless the value is an
object holding the key. -/
def vget : Value → String → Option Value
  | .obj fs, key => fget fs key
  | _, _ => none

/-- The `value["key"]` indexing operator of serde_json: missing keys and
non-objects yield `Null`. -/
def vindex (v : Value) (key : String) : Value := (vget v key).getD .null

/-- `Value::as_i64`: only numbers stored as integers qualify. -/
def as_i64 : Value → Option Int
  | .num n => some n
  | _ => none

/-- `Value::as_str`. -/
def as_str : Value → Option String
  | .str s => some s
  | _ => none

/-- `Value::as_array`. -/
def as_array : Value → Option ValueList
  | .arr xs => some xs
  | _ => none

/-- `Value::as_object`. -/
def as_object : Value → Option Fields
  | .obj fs => some fs
  | _ => none

/-- `Value::is_array`. -/
def is_array : Value → Bool
  | .arr _ => true
  | _ => false

/-- `Value::is_object`. -/
def is_object : Value → Bool
  | .obj _ => true
  | _ => false

/-- Number of elements of a JSON array. -/
def vlLength : ValueList → Nat
  | .nil => 0
  | .cons _ tl => vlLength tl + 1

/-! Node count of a document; used as a fuel bound dominating the
recursion depth of the evaluator on that document. -/
mutual
def vsize : Value → Nat
  | .null | .bool _ | .num _ | .fnum _ | .str _ => 1
  | .arr xs => vlSize xs + 1
  | .obj fs => fsSize fs + 1
def vlSize : ValueList → Nat
  | .nil => 1
  | .cons v tl => vsize v + vlSize tl + 1
def fsSize : Fields → Nat
  | .nil => 1
  | .cons _ v tl => vsize v + fsSize tl + 1
end

/-! ### Debug rendering (model of Rust `format!("{:?}", ...)`)

The evaluator keys its memoization cache on `format!("{:?}", ...)` of
documents, maps and resolved values.  The exact text is cosmetic; what
the claims depend on is that the rendering is deterministic and that
distinct small values render distinctly.  Braces of the Rust output are
replaced by parentheses, and a float-stored number is rendered as
numerator/denominator, which keeps it distinct from every integer
rendering. -/

mutual
def dbgValue : Value → List Char
  | .null => "Null".toList
  | .bool b => if b then "Bool(true)".toList else "Bool(false)".toList
  | .num n => "Number(".toList ++ renderInt n ++ ")".toList
  | .fnum q => "Number(".toList ++ renderInt q.num ++ "/".toList ++ renderNat q.den ++ ")".toList
  | .str s => "String(\"".toList ++ s.toList ++ "\")".toList
  | .arr xs => "Array [".toList ++ dbgList xs ++ "]".toList
  | .obj fs => "Object (".toList ++ dbgFields fs ++ ")".toList
def dbgList : ValueList → List Char
  | .nil => []
  | .cons v .nil => dbgValue v
  | .cons v tl => dbgValue v ++ ", ".toList ++ dbgList tl
def dbgFields : Fields → List Char
  | .nil => []
  | .cons k v .nil => "\"".toList ++ k.toList ++ "\": ".toList ++ dbgValue v
  | .cons k v tl =>
    "\"".toList ++ k.toList ++ "\": ".toList ++ dbgValue v ++ ", ".toList ++ dbgFields tl
end

/-- Rendering of a map (`serde_json::Map`), as its debug format. -/
def dbgMap (fs : Fields) : List Char := "(".toList ++ dbgFields fs ++ ")".toList

/-! `Display` (`to_string`) of a JSON value; only the `Null` and integer
number cases are ever exercised by the claims (results of
`evaluate_binary_op`), the rest mirrors compact JSON rendering with
string escaping omitted. -/
mutual
def displayValue : Value → List Char
  | .null => "null".toList
  | .bool b => if b then "true".toList else "false".toList
  | .num n => renderInt n
  | .fnum q => renderInt q.num ++ "/".toList ++ renderNat q.den
  | .str s => "\"".toList ++ s.toList ++ "\"".toList
  | .arr xs => "[".toList ++ displayList xs ++ "]".toList
  | .obj fs => "(".toList ++ displayFields fs ++ ")".toList
def displayList : ValueList → List Char
  | .nil => []
  | .cons v .nil => displayValue v
  | .cons v tl => displayValue v ++ ",".toList ++ displayList tl
def displayFields : Fields → List Char
  | .nil => []
  | .cons k v .nil => "\"".toList ++ k.toList ++ "\":".toList ++ displayValue v
  | .cons k v tl =>
    "\"".toList ++ k.toList ++ "\":".toList ++ displayValue v ++ ",".toList ++ displayFields tl
end

/-! ### The syntax tree

The tree shape the parser of `src/parser/parser.rs` constructs.  The
snapshot's `src/ast.rs` declares the same enum except that its `IfElse`
variant carries fields `if_block`/`else_block` and no elif list, while
the parser builds `IfElse` values with fields `condition`,
`then_branch`, `elif_branches`, `else_branch` (the shape also described
by the specification's data model).  The parser is the sole producer of
trees, so the embedding follows the parser's shape; the evaluator's
reads of `if_block`/`else_block` are modelled verbatim against it.
Vector-typed fields become the mutual list types below so that all
recursion stays structural; `f64` literals are idealized as rationals. -/

mutual
inductive AST where
  | program (stmts : ASTList)
  | function (name : String) (args : AST) (body : AST)
  | functionCall (name : String) (args : ASTList)
  | ret (e : AST)
  | write (es : ASTList)
  | binaryOp (left : AST) (op : String) (right : AST)
  | identifier (s : String)
  | integer (n : Int)
  | float (q : Rat)
  | bool (b : Bool)
  | string (s : String)
  | array (es : ASTList)
  | dictionary (ps : ASTPairs)
  | tuple (es : ASTList)
  | variableAssign (name : String) (value : AST)
  | coincide (expr : AST) (cases : ASTPairs) (dflt : OptionAST)
  | block (stmts : ASTList)
  | ifElse (condition : AST) (thenBranch : AST) (elifBranches : ASTPairs)
      (elseBranch : OptionAST)
  | functionArgs (args : ASTList)
  deriving DecidableEq
inductive ASTList where
  | nil
  | cons (a : AST) (tl : ASTList)
  deriving DecidableEq
inductive ASTPairs where
  | nil
  | cons (a b : AST) (tl : ASTPairs)
  deriving DecidableEq
inductive OptionAST where
  | none
  | some (a : AST)
  deriving DecidableEq
end

/-- Conversion of a Lean list of trees into the mutual list type. -/
def toASTList : List AST → ASTList
  | [] => .nil
  | a :: tl => .cons a (toASTList tl)

/-- Conversion of a Lean list of tree pairs into the mutual pair type. -/
def toASTPairs : List (AST × AST) → ASTPairs
  | [] => .nil
  | (a, b) :: tl => .cons a b (toASTPairs tl)

/-! ### The tagged-document encoding of trees

Modelled from the spec: the encoding of the syntax tree into the
self-describing tagged-document form (each node a single-key mapping
from its variant name to its field values) is produced by serde's
derived serializer for the `AST` enum of `src/ast.rs`, whose generated
code is not part of the repository sources.  Field names and their order
follow the tree type; a missing optional branch encodes as `Null`. -/

mutual
def encode : AST → Value
  | .program l => .obj (.cons "Program" (.arr (encodeL l)) .nil)
  | .function n a b =>
    .obj (.cons "Function"
      (.obj (.cons "name" (.str n) (.cons "args" (encode a) (.cons "body" (encode b) .nil)))) .nil)
  | .functionCall n args =>
    .obj (.cons "FunctionCall"
      (.obj (.cons "name" (.str n) (.cons "args" (.arr (encodeL args)) .nil))) .nil)
  | .ret e => .obj (.cons "Return" (encode e) .nil)
  | .write es => .obj (.cons "Write" (.arr (encodeL es)) .nil)
  | .binaryOp l op r =>
    .obj (.cons "BinaryOp"
      (.obj (.cons "left" (encode l) (.cons "op" (.str op) (.cons "right" (encode r) .nil)))) .nil)
  | .identifier s => .obj (.cons "Identifier" (.str s) .nil)
  | .integer n => .obj (.cons "Integer" (.num n) .nil)
  | .float q => .obj (.cons "Float" (.fnum q) .nil)
  | .bool b => .obj (.cons "Bool" (.bool b) .nil)
  | .string s => .obj (.cons "String" (.str s) .nil)
  | .array es => .obj (.cons "Array" (.arr (encodeL es)) .nil)
  | .dictionary ps => .obj (.cons "Dictionary" (.arr (encodeP ps)) .nil)
  | .tuple es => .obj (.cons "Tuple" (.arr (encodeL es)) .nil)
  | .variableAssign n v =>
    .obj (.cons "VariableAssign"
      (.obj (.cons "name" (.str n) (.cons "value" (encode v) .nil))) .nil)
  | .coincide e cs d =>
    .obj (.cons "Coincide"
      (.obj (.cons "expr" (encode e)
        (.cons "cases" (.arr (encodeP cs)) (.cons "default" (encodeO d) .nil)))) .nil)
  | .block l => .obj (.cons "Block" (.arr (encodeL l)) .nil)
  | .ifElse c t es e =>
    .obj (.cons "IfElse"
      (.obj (.cons "condition" (encode c)
        (.cons "then_branch" (encode t)
          (.cons "elif_branches" (.arr (encodeP es))
            (.cons "else_branch" (encodeO e) .nil))))) .nil)
  | .functionArgs l => .obj (.cons "FunctionArgs" (.arr (encodeL l)) .nil)
def encodeL : ASTList → ValueList
  | .nil => .nil
  | .cons a tl => .cons (encode a) (encodeL tl)
def encodeP : ASTPairs → ValueList
  | .nil => .nil
  | .cons a b tl => .cons (.arr (.cons (encode a) (.cons (encode b) .nil))) (encodeP tl)
def encodeO : OptionAST → Value
  | .none => .null
  | .some a => encode a
end

/-- The variant tags the decoder recognizes. -/
def recognizedTags : List String :=
  ["Program", "Function", "FunctionCall", "Return", "Write", "BinaryOp",
   "Identifier", "Integer", "Float", "Bool", "String", "Array", "Dictionary",
   "Tuple", "VariableAssign", "Coincide", "Block", "IfElse", "FunctionArgs"]

/-! Decoding of a tagged document back into a tree.  Modelled from the
spec: serde's derived deserializer (not in the sources) accepts a
single-key mapping whose key is a recognized variant tag and whose
payload has that variant's field shape, and rejects anything else — in
particular a document lacking a recognized variant tag. -/

mutual
def decode (v : Value) : Option AST :=
  match v with
  | .obj (.cons tag payload .nil) =>
    if tag = "Program" then decodeProgramP payload
    else if tag = "Function" then decodeFunctionP payload
    else if tag = "FunctionCall" then decodeFunctionCallP payload
    else if tag = "Return" then (decode payload).map .ret
    else if tag = "Write" then decodeWriteP payload
    else if tag = "BinaryOp" then decodeBinaryOpP payload
    else if tag = "Identifier" then decodeIdentifierP payload
    else if tag = "Integer" then decodeIntegerP payload
    else if tag = "Float" then decodeFloatP payload
    else if tag = "Bool" then decodeBoolP payload
    else if tag = "String" then decodeStringP payload
    else if tag = "Array" then decodeArrayP payload
    else if tag = "Dictionary" then decodeDictionaryP payload
    else if tag = "Tuple" then decodeTupleP payload
    else if tag = "VariableAssign" then decodeVariableAssignP payload
    else if tag = "Coincide" then decodeCoincideP payload
    else if tag = "Block" then decodeBlockP payload
    else if tag = "IfElse" then decodeIfElseP payload
    else if tag = "FunctionArgs" then decodeFunctionArgsP payload
    else none
  | _ => none
def decodeProgramP : Value → Option AST
  | .arr vs => (decodeL vs).map .program
  | _ => none
def decodeFunctionP : Value → Option AST
  | .obj (.cons "name" (.str n) (.cons "args" a (.cons "body" b .nil))) =>
    match decode a, decode b with
    | Option.some a', Option.some b' => some (.function n a' b')
    | _, _ => none
  | _ => none
def decodeFunctionCallP : Value → Option AST
  | .obj (.cons "name" (.str n) (.cons "args" (.arr vs) .nil)) =>
    (decodeL vs).map (.functionCall n)
  | _ => none
def decodeWriteP : Value → Option AST
  | .arr vs => (decodeL vs).map .write
  | _ => none
def decodeBinaryOpP : Value → Option AST
  | .obj (.cons "left" l (.cons "op" (.str op) (.cons "right" r .nil))) =>
    match decode l, decode r with
    | Option.some l', Option.some r' => some (.binaryOp l' op r')
    | _, _ => none
  | _ => none
def decodeIdentifierP : Value → Option AST
  | .str s => some (.identifier s)
  | _ => none
def decodeIntegerP : Value → Option AST
  | .num n => some (.integer n)
  | _ => none
def decodeFloatP : Value → Option AST
  | .fnum q => some (.float q)
  | _ => none
def decodeBoolP : Value → Option AST
  | .bool b => some (.bool b)
  | _ => none
def decodeStringP : Value → Option AST
  | .str s => some (.string s)
  | _ => none
def decodeArrayP : Value → Option AST
  | .arr vs => (decodeL vs).map .array
  | _ => none
def decodeDictionaryP : Value → Option AST
  | .arr vs => (decodeP vs).map .dictionary
  | _ => none
def decodeTupleP : Value → Option AST
  | .arr vs => (decodeL vs).map .tuple
  | _ => none
def decodeVariableAssignP : Value → Option AST
  | .obj (.cons "name" (.str n) (.cons "value" v .nil)) =>
    (decode v).map (.variableAssign n)
  | _ => none
def decodeCoincideP : Value → Option AST
  | .obj (.cons "expr" e (.cons "cases" (.arr cs) (.cons "default" d .nil))) =>
    match decode e, decodeP cs,
        (if d = Value.null then Option.some OptionAST.none
         else (decode d).map OptionAST.some) with
    | Option.some e', Option.some cs', Option.some d' => some (.coincide e' cs' d')
    | _, _, _ => none
  | _ => none
def decodeBlockP : Value → Option AST
  | .arr vs => (decodeL vs).map .block
  | _ => none
def decodeIfElseP : Value → Option AST
  | .obj (.cons "condition" c (.cons "then_branch" t
      (.cons "elif_branches" (.arr es) (.cons "else_branch" e .nil)))) =>
    match decode c, decode t, decodeP es,
        (if e = Value.null then Option.some OptionAST.none
         else (decode e).map OptionAST.some) with
    | Option.some c', Option.some t', Option.some es', Option.some e' =>
      some (.ifElse c' t' es' e')
    | _, _, _, _ => none
  | _ => none
def decodeFunctionArgsP : Value → Option AST
  | .arr vs => (decodeL vs).map .functionArgs
  | _ => none
def decodeL (l : ValueList) : Option ASTList :=
  match l with
  | .nil => some .nil
  | .cons v tl =>
    match decode v, decodeL tl with
    | Option.some a, Option.some tl' => some (.cons a tl')
    | _, _ => none
def decodeP (l : ValueList) : Option ASTPairs :=
  match l with
  | .nil => some .nil
  | .cons (.arr (.cons a (.cons b .nil))) tl =>
    match decode a, decode b, decodeP tl with
    | Option.some a', Option.some b', Option.some tl' => some (.cons a' b' tl')
    | _, _, _ => none
  | .cons _ _ => none
end

/-- Decoding of an optional tree field: the `Null` marker is the absent
branch, anything else decodes as the present branch.  `decodeCoincideP`
and `decodeIfElseP` inline this same conditional for their optional
payload fields. -/
def decodeOF (w : Value) : Option OptionAST :=
  if w = Value.null then Option.some OptionAST.none
  else (decode w).map OptionAST.some

set_option maxHeartbeats 1600000

/-! ### The nom combinator model

`src/parser/parser.rs` builds the grammar from nom's complete-input
combinators.  A parser is a function from the remaining input to an
optional pair of (rest, value); `none` models `Err(Error(..))` (the
backtrackable failure — none of the combinators used by the grammar
produces `Failure` or `Incomplete`).  `many0` and `separated_list0`
carry an internal fuel initialized to input length + 1, which dominates
their iteration count since every recorded iteration strictly consumes
input (nom errors out on a zero-consumption iteration, modelled the same
way here). -/

def Parser (α : Type) : Type := List Char → Option (List Char × α)

/-- nom `map`. -/
def pmap (f : α → β) (p : Parser α) : Parser β := fun s =>
  match p s with
  | Option.some (r, a) => some (r, f a)
  | Option.none => none

/-- nom `map_res`: the conversion may reject the parsed prefix. -/
def map_res (p : Parser α) (f : α → Option β) : Parser β := fun s =>
  match p s with
  | Option.some (r, a) =>
    match f a with
    | Option.some b => some (r, b)
    | Option.none => none
  | Option.none => none

/-- nom `tag`. -/
def tagP (t : List Char) : Parser (List Char) := fun s =>
  if t.isPrefixOf s then some (s.drop t.length, t) else none

/-- nom `char`. -/
def charP (c : Char) : Parser Char := fun s =>
  match s with
  | c' :: rest => if c' = c then some (rest, c) else none
  | [] => none

/-- Longest prefix satisfying the predicate, with the rest. -/
def spanP (p : Char → Bool) : List Char → (List Char × List Char)
  | [] => ([], [])
  | c :: rest =>
    if p c then
      let (t, r) := spanP p rest
      (c :: t, r)
    else ([], c :: rest)

/-- nom `take_while` (never fails). -/
def take_while (p : Char → Bool) : Parser (List Char) := fun s =>
  let (t, r) := spanP p s
  some (r, t)

/-- nom `take_while1` (fails on an empty match). -/
def take_while1 (p : Char → Bool) : Parser (List Char) := fun s =>
  match spanP p s with
  | ([], _) => none
  | (t, r) => some (r, t)

/-- nom `digit1`. -/
def digit1 : Parser (List Char) := take_while1 isDigitC

/-- nom `multispace0`. -/
def multispace0 : Parser (List Char) := take_while isSpaceC

/-- nom `multispace1`. -/
def multispace1 : Parser (List Char) := take_while1 isSpaceC

/-- nom `alt`: ordered choice with backtracking. -/
def alt : List (Parser α) → Parser α
  | [], _ => none
  | p :: rest, s =>
    match p s with
    | Option.some r => some r
    | Option.none => alt rest s

/-- nom `opt`. -/
def opt (p : Parser α) : Parser (Option α) := fun s =>
  match p s with
  | Option.some (r, a) => some (r, some a)
  | Option.none => some (s, none)

/-- nom `preceded`. -/
def preceded (p : Parser α) (q : Parser β) : Parser β := fun s =>
  match p s with
  | Option.some (r, _) => q r
  | Option.none => none

/-- Sequencing, as nom `tuple` of two parsers. -/
def seq (p : Parser α) (q : Parser β) : Parser (α × β) := fun s => do
  let (r1, a) ← p s
  let (r2, b) ← q r1
  some (r2, (a, b))

/-- nom `delimited`. -/
def delimited (p : Parser α) (q : Parser β) (r : Parser γ) : Parser β := fun s => do
  let (s1, _) ← p s
  let (s2, b) ← q s1
  let (s3, _) ← r s2
  some (s3, b)

/-- nom `separated_pair`. -/
def separated_pair (p : Parser α) (sep : Parser β) (q : Parser γ) :
    Parser (α × γ) := fun s => do
  let (s1, a) ← p s
  let (s2, _) ← sep s1
  let (s3, c) ← q s2
  some (s3, (a, c))

/-- The source's `tag_no_case` helper: case-insensitive prefix match
(ASCII lower-casing, as the claims only exercise ASCII input). -/
def tag_no_case (t : List Char) : Parser (List Char) := fun s =>
  if (t.map lowerC).isPrefixOf (s.map lowerC) then
    some (s.drop t.length, s.take t.length)
  else none

/-- Iteration core of nom `many0`; a successful inner parse that does
not strictly consume input is the `Many0` error, as in nom. -/
def many0Aux (p : Parser α) : Nat → List Char → Option (List Char × List α)
  | 0, _ => none
  | n + 1, s =>
    match p s with
    | Option.none => some (s, [])
    | Option.some (rest, a) =>
      if rest.length < s.length then
        match many0Aux p n rest with
        | Option.some (r, acc) => some (r, a :: acc)
        | Option.none => none
      else none

/-- nom `many0`. -/
def many0 (p : Parser α) : Parser (List α) := fun s => many0Aux p (s.length + 1) s

/-- Iteration core of nom `separated_list0`: separator then item, with
nom's zero-consumption loop check. -/
def sepListAux (sep : Parser β) (item : Parser α) :
    Nat → List Char → List α → Option (List Char × List α)
  | 0, _, _ => none
  | n + 1, s, acc =>
    match sep s with
    | Option.none => some (s, acc)
    | Option.some (s1, _) =>
      match item s1 with
      | Option.none => some (s, acc)
      | Option.some (s2, a) =>
        if s2.length = s.length then none
        else sepListAux sep item n s2 (acc ++ [a])

/-- nom `separated_list0`. -/
def separated_list0 (sep : Parser β) (item : Parser α) : Parser (List α) := fun s =>
  match item s with
  | Option.none => some (s, [])
  | Option.some (s1, a) => sepListAux sep item (s1.length + 1) s1 [a]

/-! ### The grammar of `src/parser/parser.rs`

Leaf parsers first, then the mutually recursive rules with an explicit
fuel decremented at every grammar call. -/

/-- Parsing a string literal. -/
def string_literal : Parser AST :=
  pmap (fun cs => AST.string (String.mk cs))
    (delimited (tagP ['"']) (take_while (fun c => !(c == '"'))) (tagP ['"']))

/-- Parsing a quoted name (declared in the source, unused by the
grammar's entry points). -/
def name : Parser AST :=
  pmap (fun cs => AST.string (String.mk cs))
    (delimited (tagP ['"']) (take_while (fun c => !(c == ' '))) (tagP ['"']))

/-- Parsing an identifier. -/
def identifier : Parser AST :=
  pmap (fun cs => AST.identifier (String.mk cs)) (take_while1 isIdentC)

/-- `i32::from_str` on a digit string: the value, unless it exceeds
`i32::MAX` (a leading sign is impossible after `digit1`). -/
def i32_from_str (cs : List Char) : Option Int :=
  if digitsToNat cs ≤ 2147483647 then some (Int.ofNat (digitsToNat cs)) else none

/-- Parsing an integer literal. -/
def integer : Parser AST := pmap AST.integer (map_res digit1 i32_from_str)

/-- Parsing a float literal: `recognize(digit1 "." digit1)` fed to
`f64::from_str`, with the float value idealized as the exact decimal
rational. -/
def float : Parser AST := fun s => do
  let (r1, ip) ← digit1 s
  let (r2, _) ← tagP ['.'] r1
  let (r3, fp) ← digit1 r2
  some (r3, AST.float ((digitsToNat ip : Rat) + mkRat (digitsToNat fp) (10 ^ fp.length)))

/-- Parsing a boolean literal (case-insensitive). -/
def boolean : Parser AST :=
  alt [pmap (fun _ => AST.bool true) (tag_no_case "true".toList),
    pmap (fun _ => AST.bool false) (tag_no_case "false".toList)]

/-- Parsing a comparison operator. -/
def comparison_operator : Parser (List Char) :=
  alt [tagP "=".toList, tagP "!=".toList, tagP "<=".toList, tagP ">=".toList,
    tagP "<".toList, tagP ">".toList]

mutual

/-- Parsing a parenthesized expression. -/
def parenthesized_expression : Nat → Parser AST
  | 0, _ => none
  | fuel + 1, input =>
    delimited (tagP ['(']) (math_expression fuel) (tagP [')']) input

/-- Parsing an array literal. -/
def array_literal : Nat → Parser AST
  | 0, _ => none
  | fuel + 1, input => do
    let (i, _) ← tagP ['['] input
    let (i, elements) ← separated_list0 (preceded multispace0 (tagP [',']))
      (preceded multispace0
        (alt [math_expression fuel, string_literal, dictionary_literal fuel])) i
    let (i, _) ← preceded multispace0 (tagP [']']) i
    some (i, AST.array (toASTList elements))

/-- Parsing a dictionary literal. -/
def dictionary_literal : Nat → Parser AST
  | 0, _ => none
  | fuel + 1, input => do
    let (i, _) ← tagP ['{'] input
    let (i, pairs) ← separated_list0 (preceded multispace0 (tagP [',']))
      (preceded multispace0 (separated_pair
        (preceded multispace0 (alt [math_expression fuel, string_literal]))
        (preceded multispace0 (tagP [':']))
        (preceded multispace0 (alt [math_expression fuel, string_literal])))) i
    let (i, _) ← preceded multispace0 (tagP ['}']) i
    some (i, AST.dictionary (toASTPairs pairs))

/-- Parsing a factor, with the source's trial order. -/
def factor : Nat → Parser AST
  | 0, _ => none
  | fuel + 1, input =>
    alt [float, integer, boolean, identifier, string_literal,
      array_literal fuel, dictionary_literal fuel,
      parenthesized_expression fuel] input

/-- Parsing a term: a factor possibly followed by `*`/`/` operations,
folded left-to-right. -/
def term : Nat → Parser AST
  | 0, _ => none
  | fuel + 1, input => do
    let (i, init) ← factor fuel input
    let (i, res) ← many0 (seq (preceded multispace0 (alt [tagP ['*'], tagP ['/']]))
      (preceded multispace0 (factor fuel))) i
    some (i, res.foldl (fun acc ov => AST.binaryOp acc (String.mk ov.1) ov.2) init)

/-- Parsing a math expression: a term possibly followed by `+`/`-`
operations, folded left-to-right. -/
def math_expression : Nat → Parser AST
  | 0, _ => none
  | fuel + 1, input => do
    let (i, init) ← term fuel input
    let (i, res) ← many0 (seq (preceded multispace0 (alt [tagP ['+'], tagP ['-']]))
      (preceded multispace0 (term fuel))) i
    some (i, res.foldl (fun acc ov => AST.binaryOp acc (String.mk ov.1) ov.2) init)

/-- Parsing a return statement. -/
def return_stmt : Nat → Parser AST
  | 0, _ => none
  | fuel + 1, input => do
    let (i, _) ← tagP "return".toList input
    let (i, _) ← multispace1 i
    let (i, expr) ← math_expression fuel i
    some (i, AST.ret expr)

/-- Parsing a write statement: a comma-separated expression list. -/
def write_stmt : Nat → Parser AST
  | 0, _ => none
  | fuel + 1, input => do
    let (i, _) ← tagP "write".toList input
    let (i, _) ← multispace1 i
    let (i, exprs) ← separated_list0 (preceded multispace0 (tagP [',']))
      (preceded multispace0
        (alt [function_call fuel, math_expression fuel, string_literal, identifier])) i
    some (i, AST.write (toASTList exprs))

/-- Parsing a comparison expression. -/
def comparison_expression : Nat → Parser AST
  | 0, _ => none
  | fuel + 1, input => do
    let (i, left) ← math_expression fuel input
    let (i, res) ← many0 (seq (preceded multispace0 comparison_operator)
      (preceded multispace0 (math_expression fuel))) i
    some (i, res.foldl (fun acc ov => AST.binaryOp acc (String.mk ov.1) ov.2) left)

/-- Parsing a parenthesized argument list. -/
def parse_arguments : Nat → Parser (List AST)
  | 0, _ => none
  | fuel + 1, input =>
    delimited (charP '(')
      (separated_list0 (preceded multispace0 (charP ','))
        (preceded multispace0 (factor fuel)))
      (charP ')') input

/-- Parsing a function definition: name, arguments, braced body. -/
def function : Nat → Parser AST
  | 0, _ => none
  | fuel + 1, input => do
    let (i, nm) ← take_while1 isIdentC input
    let (i, args) ← preceded multispace0 (parse_arguments fuel) i
    let (i, _) ← multispace0 i
    let (i, _) ← charP '{' i
    let (i, elements) ← many0 (preceded multispace0 (statement fuel)) i
    let (i, _) ← delimited multispace0 (charP '}') multispace0 i
    some (i, AST.function (String.mk nm) (AST.functionArgs (toASTList args))
      (AST.block (toASTList elements)))

/-- Parsing a function call. -/
def function_call : Nat → Parser AST
  | 0, _ => none
  | fuel + 1, input => do
    let (i, nm) ← identifier input
    let (i, args) ← parse_arguments fuel i
    match nm with
    | AST.identifier id => some (i, AST.functionCall id (toASTList args))
    | _ => none

/-- Parsing a coincide statement. -/
def coincide : Nat → Parser AST
  | 0, _ => none
  | fuel + 1, input => do
    let (i, _) ← tagP "coincide".toList input
    let (i, _) ← multispace1 i
    let (i, expr) ← identifier i
    let (i, _) ← tagP [':'] i
    let (i, _) ← multispace1 i
    let (i, cs) ← many0 (seq (preceded multispace0 (math_expression fuel))
      (seq (preceded multispace1 (tagP "then".toList))
        (preceded multispace1 (statement fuel)))) i
    let (i, dflt) ← opt (preceded multispace0
      (seq (tagP "default".toList) (preceded multispace1 (statement fuel)))) i
    some (i, AST.coincide expr (toASTPairs (cs.map (fun x => (x.1, x.2.2))))
      (match dflt with
       | Option.some x => OptionAST.some x.2
       | Option.none => OptionAST.none))

/-- Parsing an if-else statement: condition and braced then-block, then
the elif/else tail. -/
def if_else : Nat → Parser AST
  | 0, _ => none
  | fuel + 1, input => do
    let (i, _) ← tagP "if".toList input
    let (i, _) ← multispace1 i
    let (i, condition) ← comparison_expression fuel i
    let (i, _) ← multispace0 i
    let (i, _) ← charP '{' i
    let (i, then_branch) ← many0 (preceded multispace0 (statement fuel)) i
    let (i, _) ← charP '}' i
    let (i, tail) ← if_else_loop fuel i
    some (i, AST.ifElse condition (AST.block (toASTList then_branch))
      (toASTPairs tail.1) tail.2)

/-- The source's elif/else loop: `else` is tried before `elif`; on
neither, the loop breaks keeping the pre-whitespace input. -/
def if_else_loop : Nat → List Char → Option (List Char × (List (AST × AST) × OptionAST))
  | 0, _ => none
  | fuel + 1, input => do
    let (i, _) ← multispace0 input
    let (i, next_token) ← opt (alt [tagP "else".toList, tagP "elif".toList]) i
    match next_token with
    | Option.some t =>
      if t = "elif".toList then do
        let (i, elif_condition) ← preceded multispace1 (comparison_expression fuel) i
        let (i, _) ← multispace0 i
        let (i, _) ← charP '{' i
        let (i, elif_branch) ← many0 (preceded multispace0 (statement fuel)) i
        let (i, _) ← charP '}' i
        let (i, rest) ← if_else_loop fuel i
        some (i, ((elif_condition, AST.block (toASTList elif_branch)) :: rest.1, rest.2))
      else if t = "else".toList then do
        let (i, _) ← multispace0 i
        let (i, _) ← charP '{' i
        let (i, else_branch) ← many0 (preceded multispace0 (statement fuel)) i
        let (i, _) ← charP '}' i
        some (i, ([], OptionAST.some (AST.block (toASTList else_branch))))
      else some (input, ([], OptionAST.none))
    | Option.none => some (input, ([], OptionAST.none))

/-- Parsing a variable assignment `<identifier> is <value>`. -/
def variable_assign : Nat → Parser AST
  | 0, _ => none
  | fuel + 1, input => do
    let (i, nm) ← identifier input
    let (i, _) ← multispace1 i
    let (i, _) ← tagP "is".toList i
    let (i, _) ← multispace1 i
    let (i, value) ← alt [math_expression fuel, string_literal, array_literal fuel,
      dictionary_literal fuel] i
    match nm with
    | AST.identifier id => some (i, AST.variableAssign id value)
    | _ => none

/-- Parsing a statement: the source's ordered alternatives. -/
def statement : Nat → Parser AST
  | 0, _ => none
  | fuel + 1, input =>
    preceded multispace0
      (alt [return_stmt fuel, write_stmt fuel, variable_assign fuel, function fuel,
        function_call fuel, if_else fuel, coincide fuel]) input

end

/-- Parsing a program: a series of statements. -/
def program : Nat → Parser (List AST)
  | 0, _ => none
  | fuel + 1, input => many0 (preceded multispace0 (statement fuel)) input

/-! ### parse_program and its error taxonomy -/

/-- The `ParseError` enum of `src/error.rs`; `ioError` and `nomError`
carry external payloads not constructed by `parse_program`. -/
inductive ParseError where
  | unknownToken (token : List Char) (line : Nat)
  | ioError
  | syntaxError (message : List Char) (line : Nat)
  | nomError
  deriving DecidableEq

instance {ε α : Type} [DecidableEq ε] [DecidableEq α] : DecidableEq (Except ε α)
  | .error a, .error b =>
    if h : a = b then .isTrue (by rw [h])
    else .isFalse (by intro hh; injection hh; contradiction)
  | .error _, .ok _ => .isFalse Except.noConfusion
  | .ok _, .error _ => .isFalse Except.noConfusion
  | .ok a, .ok b =>
    if h : a = b then .isTrue (by rw [h])
    else .isFalse (by intro hh; injection hh; contradiction)

/-- Rust `str::trim` (whitespace on both ends; ASCII model). -/
def trim (cs : List Char) : List Char :=
  ((cs.dropWhile isSpaceC).reverse.dropWhile isSpaceC).reverse

/-- Split on newline characters, keeping empty segments. -/
def splitNl : List Char → List (List Char)
  | [] => [[]]
  | c :: rest =>
    if c = '\n' then [] :: splitNl rest
    else
      match splitNl rest with
      | seg :: segs => (c :: seg) :: segs
      | [] => [[c]]

/-- Rust `str::lines`: split on newline, dropping a final empty segment
(carriage returns do not occur in the inputs under study). -/
def linesOf (cs : List Char) : List (List Char) :=
  match cs with
  | [] => []
  | _ =>
    if cs.getLast? = some '\n' then (splitNl cs).dropLast else splitNl cs

/-- Rust `str::contains` for a literal needle. -/
def containsSub : List Char → List Char → Bool
  | [], needle => needle.isPrefixOf []
  | c :: t, needle => needle.isPrefixOf (c :: t) || containsSub t needle

/-- Fuel passed to the grammar by the embedded entry point: the nesting
depth of the recursive rules on an input is bounded by its length plus a
constant margin for the outermost layers. -/
def parseFuel (input : List Char) : Nat := input.length + 16

/-- `parse_program` of `src/parser/parser.rs`: on leftover
non-whitespace input, an `UnknownToken` carrying the trimmed remainder
and the line obtained by counting leading input lines that are not
substrings of the remainder, plus one; on a failure of `program`, a
`SyntaxError` naming the total line count. -/
def parse_program (input : List Char) : Except ParseError AST :=
  match program (parseFuel input) input with
  | Option.some (remaining, asts) =>
    if trim remaining = [] then .ok (.program (toASTList asts))
    else
      .error (.unknownToken (trim remaining)
        (((linesOf input).takeWhile (fun l => !(containsSub remaining l))).length + 1))
  | Option.none =>
    .error (.syntaxError
      ("Failed to parse program at line ".toList ++ renderNat (linesOf input).length)
      (linesOf input).length)


/-! ### The evaluator of `src/interpreter/interpreter.rs`

The interpreter state carries the function table, the global variable
table, the loaded program, the memoization cache, program output and
diagnostics.  `HashMap` is modelled as an association list with
insert-or-replace update; cache keys are the debug renderings the source
builds with `format!`.  The extra `cacheOn` flag is a modelling device:
`true` is the source behaviour, `false` is the uncached reference
evaluation described by the specification (all cache reads and writes
skipped); no other code path consults the flag. -/

/-- First-match lookup in an association list (HashMap get). -/
def lookupA {κ α : Type} [DecidableEq κ] : List (κ × α) → κ → Option α
  | [], _ => none
  | (k', v) :: t, k => if k' = k then some v else lookupA t k

/-- Insert-or-replace in an association list (HashMap insert). -/
def upsertA {κ α : Type} [DecidableEq κ] : List (κ × α) → κ → α → List (κ × α)
  | [], k, v => [(k, v)]
  | (k', v') :: t, k, v => if k' = k then (k, v) :: t else (k', v') :: upsertA t k v

/-- The `Function` struct of the interpreter (named `FuncDef` here to
avoid shadowing Lean's `Function` namespace). -/
structure FuncDef where
  name : String
  args : List String
  body : Value
  deriving DecidableEq

/-- The `Interpreter` struct, extended with the two observable channels
and the `cacheOn` modelling flag.  The source's `variables` field is
named `vars` (`variables` is reserved in Lean). -/
structure InterpState where
  functions : List (String × FuncDef)
  vars : List (String × Value)
  program : ValueList
  cache : List (List Char × Value)
  cacheOn : Bool
  output : List (List Char)
  diag : List (List Char)
  deriving DecidableEq

/-- `self.cache.get(key)`, skipped by the uncached reference. -/
def cacheGet (st : InterpState) (k : List Char) : Option Value :=
  if st.cacheOn then lookupA st.cache k else none

/-- `self.cache.insert(key, v)`, skipped by the uncached reference. -/
def cachePut (st : InterpState) (k : List Char) (v : Value) : InterpState :=
  if st.cacheOn then { st with cache := upsertA st.cache k v } else st

/-- One `writeln!` line of program output. -/
def pushOut (st : InterpState) (line : List Char) : InterpState :=
  { st with output := st.output ++ [line] }

/-- One diagnostic message. -/
def pushDiag (st : InterpState) (msg : List Char) : InterpState :=
  { st with diag := st.diag ++ [msg] }

/-- Rust `Option::unwrap`: panics on `None`. -/
def unwrapO {α : Type} : Option α → Except String α
  | Option.some a => .ok a
  | Option.none => .error "panic: unwrap on None"

/-- `extract_value`: unwraps `Integer` and `String` documents into plain
numbers and strings, passing anything else through. -/
def extract_value (v : Value) : Except String Value :=
  match vget v "Integer" with
  | Option.some i => (unwrapO (as_i64 i)).map Value.num
  | Option.none =>
    match vget v "String" with
    | Option.some s => (unwrapO (as_str s)).map Value.str
    | Option.none => .ok v

/-- The binary-operation cache key
`format!("{:?} {} {:?}", left, op, right)`. -/
def binKey (left : Value) (op : String) (right : Value) : List Char :=
  dbgValue left ++ " ".toList ++ op.toList ++ " ".toList ++ dbgValue right

/-- Entry list of a scope debug rendering. -/
def dbgScopeEntries : List (String × Value) → List Char
  | [] => []
  | (k, v) :: [] => "\"".toList ++ k.toList ++ "\": ".toList ++ dbgValue v
  | (k, v) :: t =>
    "\"".toList ++ k.toList ++ "\": ".toList ++ dbgValue v ++ ", ".toList ++ dbgScopeEntries t

/-- Debug rendering of a local scope, `format!("{:?}", local_scope)`.
The real `HashMap` iteration order is nondeterministic; the model uses
the deterministic binding order, which only the cache key shape (not any
claim) observes. -/
def scopeKey (m : List (String × Value)) : List Char :=
  "Scope(".toList ++ dbgScopeEntries m ++ ")".toList

/-- The arithmetic core of `evaluate_binary_op` on the two resolved
operand values: `as_i64` views, integer arithmetic with truncating
division guarded against a zero right operand, anomalies as diagnostics
with a `Null` result.  The source computes with plain `i64` operations,
which overflow-panic in debug builds and wrap in release builds (and
`i64::MIN / -1` panics in both); here they are unbounded `Int`
operations, so theorems about arithmetic results are restricted to the
`noOverflow` domain on which the two agree under either profile. -/
def binOpResult (left : Value) (op : String) (right : Value) (st : InterpState) :
    Value × InterpState :=
  if op = "+" then
    match as_i64 left, as_i64 right with
    | Option.some a, Option.some b => (.num (a + b), st)
    | _, _ =>
      (.null, pushDiag st "BinaryOp error: one of the operands is not an integer.".toList)
  else if op = "-" then
    match as_i64 left, as_i64 right with
    | Option.some a, Option.some b => (.num (a - b), st)
    | _, _ =>
      (.null, pushDiag st "BinaryOp error: one of the operands is not an integer.".toList)
  else if op = "*" then
    match as_i64 left, as_i64 right with
    | Option.some a, Option.some b => (.num (a * b), st)
    | _, _ =>
      (.null, pushDiag st "BinaryOp error: one of the operands is not an integer.".toList)
  else if op = "/" then
    match as_i64 left, as_i64 right with
    | Option.some a, Option.some b =>
      if b ≠ 0 then (.num (Int.tdiv a b), st)
      else (.null, pushDiag st "Error: Division by zero".toList)
    | _, _ =>
      (.null, pushDiag st "BinaryOp error: one of the operands is not an integer.".toList)
  else (.null, pushDiag st ("Unknown binary operator: ".toList ++ op.toList))

/-- Cache consultation and fill of `evaluate_binary_op`, after the
operand resolution: a hit returns the cached value, a miss computes
`binOpResult` and stores it under the key. -/
def eboCore (left : Value) (op : String) (right : Value) (st : InterpState) :
    Except String (Value × InterpState) :=
  let key := binKey left op right
  match cacheGet st key with
  | Option.some cached => .ok (cached, st)
  | Option.none =>
    let rs : Value × InterpState := binOpResult left op right st
    .ok (rs.1, cachePut rs.2 key rs.1)

mutual

/-- `evaluate_binary_op`: resolves both operands, consults the cache
keyed on their debug rendering, computes with `as_i64` views (integer
arithmetic, truncating division guarded against a zero right operand),
reports anomalies as diagnostics with a `Null` result, and caches the
result. -/
def evaluate_binary_op : Nat → InterpState → Value → List (String × Value) →
    Except String (Value × InterpState)
  | 0, _, _, _ => .error "model: fuel exhausted"
  | fuel + 1, st, binary_op, local_scope => do
    let (left, st) ← resolve_value fuel st (vindex binary_op "left") local_scope
    let (right, st) ← resolve_value fuel st (vindex binary_op "right") local_scope
    let op ← unwrapO (as_str (vindex binary_op "op"))
    eboCore left op right st

/-- `resolve_value`: identifiers through local then global scope,
integer documents directly, nested binary operations recursively;
anything else is a diagnostic and `Null`. -/
def resolve_value : Nat → InterpState → Value → List (String × Value) →
    Except String (Value × InterpState)
  | 0, _, _, _ => .error "model: fuel exhausted"
  | fuel + 1, st, value, local_scope =>
    match vget value "Identifier" with
    | Option.some idv => do
      let id_str ← unwrapO (as_str idv)
      match lookupA local_scope id_str with
      | Option.some val => do
        let r ← extract_value val
        .ok (r, st)
      | Option.none =>
        match lookupA st.vars id_str with
        | Option.some gval => do
          let r ← extract_value gval
          .ok (r, st)
        | Option.none =>
          .ok (.null,
            pushDiag st ("Identifier '".toList ++ id_str.toList ++ "' not found".toList))
    | Option.none =>
      match vget value "Integer" with
      | Option.some iobj => do
        let n ← unwrapO (as_i64 iobj)
        .ok (.num n, st)
      | Option.none =>
        match vget value "BinaryOp" with
        | Option.some bo => evaluate_binary_op fuel st bo local_scope
        | Option.none =>
          .ok (.null, pushDiag st ("Unexpected value type: ".toList ++ dbgValue value))

end

/-- Fuel the evaluator passes to `evaluate_binary_op` from its
non-recursive call sites: the descent of the mutual pair consumes at
most one fuel per document node. -/
def evalFuel (bo : Value) : Nat := vsize bo + 2

/-- Rendering of a resolved value in `process_write`'s identifier
branch: numbers and strings as text, anything else a placeholder. -/
def renderResolved (v : Value) : List Char :=
  match v with
  | .num n => renderInt n
  | .fnum q => renderInt q.num ++ "/".toList ++ renderNat q.den
  | .str s => s.toList
  | _ => "Unsupported type".toList

/-- `process_write`: cache keyed on the write item's debug rendering;
on miss, dispatch on the item's shape (BinaryOp, String, Identifier,
Integer, placeholder) and cache the rendered result. -/
def process_write (st : InterpState) (write_obj : Fields)
    (local_scope : List (String × Value)) : Except String (List Char × InterpState) :=
  let key := dbgMap write_obj
  match cacheGet st key with
  | Option.some cached => do
    let s ← unwrapO (as_str cached)
    .ok (s.toList, st)
  | Option.none => do
    let rs ← (
      match fget write_obj "BinaryOp" with
      | Option.some bo => do
        let (v, st2) ← evaluate_binary_op (evalFuel bo) st bo local_scope
        Except.ok (displayValue v, st2)
      | Option.none =>
        match fget write_obj "String" with
        | Option.some sv => do
          let s ← unwrapO (as_str sv)
          Except.ok (s.toList, st)
        | Option.none =>
          match fget write_obj "Identifier" with
          | Option.some idv => do
            let id_str ← unwrapO (as_str idv)
            match lookupA local_scope id_str with
            | Option.some val => do
              let rv ← extract_value val
              Except.ok (renderResolved rv, st)
            | Option.none =>
              match lookupA st.vars id_str with
              | Option.some gval => do
                let rv ← extract_value gval
                Except.ok (renderResolved rv, st)
              | Option.none =>
                Except.ok
                  ("Identifier '".toList ++ id_str.toList ++ "' not found".toList, st)
          | Option.none =>
            match fget write_obj "Integer" with
            | Option.some iv => do
              let n ← unwrapO (as_i64 iv)
              Except.ok (renderInt n, st)
            | Option.none => Except.ok ("Unknown data type in Write statement".toList, st))
    .ok (rs.1, cachePut rs.2 key (.str (String.mk rs.1)))

/-- `process_variable_assign`: stores the raw value document under the
name, after consulting the cache keyed on the assignment's shape. -/
def process_variable_assign (st : InterpState) (element : Value) :
    Except String InterpState :=
  match (vget element "VariableAssign").bind as_object with
  | Option.some var_assign => do
    let nameV ← unwrapO (fget var_assign "name")
    let var_name ← unwrapO (as_str nameV)
    let var_value ← unwrapO (fget var_assign "value")
    let key := "VariableAssign:".toList ++ dbgMap var_assign
    match cacheGet st key with
    | Option.some cached =>
      .ok { st with vars := upsertA st.vars var_name cached }
    | Option.none =>
      .ok (cachePut { st with vars := upsertA st.vars var_name var_value }
        key var_value)
  | Option.none => .ok st

/-- `process_return`: cache keyed on the return's shape and the local
scope rendering; identifiers resolve through the local scope only; a
non-integer outcome hits `as_i64().unwrap()`, a panic. -/
def process_return (st : InterpState) (return_obj : Fields)
    (local_scope : List (String × Value)) : Except String (Int × InterpState) :=
  let key := "Return:".toList ++ dbgMap return_obj ++ scopeKey local_scope
  match cacheGet st key with
  | Option.some cached => do
    let n ← unwrapO (as_i64 cached)
    .ok (n, st)
  | Option.none => do
    let rs ← (
      match fget return_obj "Identifier" with
      | Option.some idv => do
        let id_str ← unwrapO (as_str idv)
        match lookupA local_scope id_str with
        | Option.some val => do
          let ev ← extract_value val
          let n ← unwrapO (as_i64 ev)
          Except.ok (n, st)
        | Option.none =>
          Except.ok (0,
            pushDiag st ("Return identifier '".toList ++ id_str.toList ++ "' not found".toList))
      | Option.none =>
        match fget return_obj "BinaryOp" with
        | Option.some bo => do
          let (v, st2) ← evaluate_binary_op (evalFuel bo) st bo local_scope
          let n ← unwrapO (as_i64 v)
          Except.ok (n, st2)
        | Option.none => Except.ok (0, pushDiag st "Unknown return type".toList))
    .ok (rs.1, cachePut rs.2 key (.num rs.1))

/-- One output line of a `Write` statement: the concatenation of
`process_write` over the object items of the write list. -/
def writeLine : ValueList → InterpState → List (String × Value) →
    Except String (List Char × InterpState)
  | .nil, st, _ => .ok ([], st)
  | .cons el tl, st, scope =>
    match as_object el with
    | Option.some wobj => do
      let (piece, st) ← process_write st wobj scope
      let (rest, st) ← writeLine tl st scope
      .ok (piece ++ rest, st)
    | Option.none => writeLine tl st scope

/-- Statement loop of `execute_function_body`: writes against the fixed
local scope, assignments (into the global table), and `Return` values
recorded without breaking the loop. -/
def ebfGo : ValueList → InterpState → List (String × Value) → Option Int →
    Except String (Option Int × InterpState)
  | .nil, st, _, rv => .ok (rv, st)
  | .cons stmt tl, st, scope, rv => do
    let st ← (
      match (vget stmt "Write").bind as_array with
      | Option.some warr => do
        let (line, st2) ← writeLine warr st scope
        Except.ok (pushOut st2 line)
      | Option.none => Except.ok st)
    let st ← process_variable_assign st stmt
    match (vget stmt "Return").bind as_object with
    | Option.some robj => do
      let (n, st) ← process_return st robj scope
      ebfGo tl st scope (some n)
    | Option.none => ebfGo tl st scope rv

/-- `execute_function_body`: runs the body block against the local
scope; the recorded return value, or zero. -/
def execute_function_body (st : InterpState) (body : Value)
    (local_scope : List (String × Value)) : Except String (Int × InterpState) :=
  match (vget body "Block").bind as_array with
  | Option.some block => do
    let (rv, st) ← ebfGo block st local_scope none
    .ok (rv.getD 0, st)
  | Option.none => .ok (0, st)

/-- Pairing of formal parameter names with argument documents. -/
def zipScope : List String → ValueList → List (String × Value)
  | [], _ => []
  | _ :: _, .nil => []
  | p :: ps, .cons v vs => (p, v) :: zipScope ps vs

/-- `HashMap::extend`: overlay of the bindings on the base table. -/
def extendScope (base : List (String × Value)) :
    List (String × Value) → List (String × Value)
  | [] => base
  | (k, v) :: t => extendScope (upsertA base k v) t

/-- `process_function_call`: looks the callee up, checks arity, builds
the local scope by cloning the globals and overlaying the parameter
bindings, and executes the body; failures are diagnostics with result
zero. -/
def process_function_call (st : InterpState) (element : Value) :
    Except String (Int × InterpState) :=
  match (vget element "FunctionCall").bind as_object with
  | Option.none => .ok (0, st)
  | Option.some call_obj =>
    match (fget call_obj "name").bind as_str with
    | Option.none => .ok (0, st)
    | Option.some nm =>
      match lookupA st.functions nm with
      | Option.some func => do
        let argsV ← unwrapO (fget call_obj "args")
        let args ← unwrapO (as_array argsV)
        if vlLength args = func.args.length then
          let arg_map := zipScope func.args args
          let local_scope := extendScope st.vars arg_map
          execute_function_body st func.body local_scope
        else
          .ok (0, pushDiag st ("Error: Function '".toList ++ nm.toList ++
            "' expects ".toList ++ renderNat func.args.length ++
            " arguments but ".toList ++ renderNat (vlLength args) ++
            " were provided".toList))
      | Option.none =>
        .ok (0, pushDiag st ("Function '".toList ++ nm.toList ++ "' not found".toList))

/-- `get_value_from_identifier_or_value`: a global-table lookup for
identifiers (Null if absent), the value itself otherwise. -/
def get_value_from_identifier_or_value (st : InterpState) (val : Value) :
    Except String Value :=
  match vget val "Identifier" with
  | Option.some idv => do
    let id_str ← unwrapO (as_str idv)
    .ok ((lookupA st.vars id_str).getD .null)
  | Option.none => .ok val

/-- `evaluate_if_else_condition`: only the `=` operator is understood,
compared by structural equality of the (shallowly) resolved sides; any
other operator or shape yields no verdict. -/
def evaluate_if_else_condition (st : InterpState) (binary_op : Value) :
    Except String (Option Bool) :=
  match vget binary_op "left", vget binary_op "right",
      (vget binary_op "op").bind as_str with
  | Option.some l, Option.some r, Option.some op =>
    if op = "=" then do
      let lv ← get_value_from_identifier_or_value st l
      let rv ← get_value_from_identifier_or_value st r
      .ok (some (decide (lv = rv)))
    else .ok none
  | _, _, _ => .ok none

/-- Statement loop of `execute_block`: writes (with an empty local
scope), assignments, and function calls. -/
def eblGo : ValueList → InterpState → Except String InterpState
  | .nil, st => .ok st
  | .cons stmt tl, st => do
    let st ← (
      match (vget stmt "Write").bind as_array with
      | Option.some warr => do
        let (line, st2) ← writeLine warr st []
        Except.ok (pushOut st2 line)
      | Option.none => Except.ok st)
    let st ← process_variable_assign st stmt
    let (_, st) ← process_function_call st stmt
    eblGo tl st

/-- `execute_block`: runs a `Block` document's statements. -/
def execute_block (st : InterpState) (block : Value) : Except String InterpState :=
  match (vget block "Block").bind as_array with
  | Option.some stmts => eblGo stmts st
  | Option.none => .ok st

/-- `process_if_else`: a condition that is a `BinaryOp` document gets a
verdict from `evaluate_if_else_condition`; on a verdict the True/False
line is printed and the `if_block` (or `else_block`) key is unwrapped —
a panic when the document does not carry that key — and executed; on no
verdict nothing executes. -/
def process_if_else (st : InterpState) (element : Value) :
    Except String InterpState :=
  match (vget element "IfElse").bind as_object with
  | Option.none => .ok st
  | Option.some if_else =>
    match (fget if_else "condition").bind as_object with
    | Option.none => .ok st
    | Option.some condition =>
      match fget condition "BinaryOp" with
      | Option.none => .ok st
      | Option.some bo => do
        let r ← evaluate_if_else_condition st bo
        match r with
        | Option.none => .ok st
        | Option.some result =>
          let st := pushOut st (if result then "True".toList else "False".toList)
          if result then do
            let blk ← unwrapO (fget if_else "if_block")
            execute_block st blk
          else do
            let blk ← unwrapO (fget if_else "else_block")
            execute_block st blk

/-- Main loop of `interpret` over the program elements: conditional
processing, the `Write` array check (a panic when the `Write` key holds
a non-array), function calls, then the write line or the assignment. -/
def interpGo : ValueList → InterpState → Except String InterpState
  | .nil, st => .ok st
  | .cons element tl, st => do
    let st ← process_if_else st element
    let wo ← (
      match vget element "Write" with
      | Option.some wv =>
        if is_array wv then Except.ok (as_array wv)
        else Except.error "panic: Expected Write to be an array but got something else."
      | Option.none => Except.ok Option.none)
    let (_, st) ← process_function_call st element
    match wo with
    | Option.some warr => do
      let (line, st) ← writeLine warr st []
      interpGo tl (pushOut st line)
    | Option.none => do
      let st ← process_variable_assign st element
      interpGo tl st

/-- `interpret`: runs the loaded program (the functions debug dump it
prints first is not modelled). -/
def interpret (st : InterpState) : Except String InterpState := interpGo st.program st

/-- Formal parameter names of a function document:
`arg["Identifier"].as_str().unwrap()` over the argument list. -/
def paramNames : ValueList → Except String (List String)
  | .nil => .ok []
  | .cons a tl => do
    let s ← unwrapO (as_str (vindex a "Identifier"))
    let rest ← paramNames tl
    .ok (s :: rest)

/-- Registration step of `extract_functions_recursive`: an object
carrying a `Function` key registers that function (name, parameter
names from the `FunctionArgs` field, body document). -/
def regFunction (fs : Fields) (st : InterpState) : Except String InterpState :=
  match fget fs "Function" with
  | Option.some func_obj => do
    let nm ← unwrapO (as_str (vindex func_obj "name"))
    let argsArr ← unwrapO (as_array (vindex (vindex func_obj "args") "FunctionArgs"))
    let params ← paramNames argsArr
    Except.ok { st with
      functions := upsertA st.functions nm ⟨nm, params, vindex func_obj "body"⟩ }
  | Option.none => Except.ok st

mutual

/-- One element of `extract_functions_recursive`: register a `Function`
document if present, then recurse into every field; a non-object
element hits the source's `as_object().unwrap()` panic when its fields
are iterated. -/
def extractElem (v : Value) (st : InterpState) : Except String InterpState :=
  match v with
  | .obj fs => do
    let st ← regFunction fs st
    extractFields fs st
  | _ => .error "panic: unwrap on None"

def extractFields : Fields → InterpState → Except String InterpState
  | .nil, st => .ok st
  | .cons _ val tl, st => do
    let st ← (
      match val with
      | .arr l => extractList l st
      | .obj fs2 => do
        let st2 ← regFunction fs2 st
        extractFields fs2 st2
      | _ => Except.ok st)
    extractFields tl st

def extractList : ValueList → InterpState → Except String InterpState
  | .nil, st => .ok st
  | .cons v tl, st => do
    let st ← extractElem v st
    extractList tl st

end

/-- Fresh interpreter state (`Interpreter::new`) with the given cache
mode. -/
def initState (cacheOn : Bool) : InterpState :=
  ⟨[], [], .nil, [], cacheOn, [], []⟩

/-- `load_from_json` followed by `interpret`: reads the `Program` array
(panicking if absent), registers functions recursively, and runs the
program (the variables debug dump is not modelled). -/
def load_and_interpret (cacheOn : Bool) (data : Value) : Except String InterpState := do
  let programArr ← unwrapO (as_array (vindex data "Program"))
  let st ← extractList programArr { initState cacheOn with program := programArr }
  interpret st

/-- `interpret_from_json`: the source pipeline entry on a tagged
document. -/
def interpret_from_json (data : Value) : Except String InterpState :=
  load_and_interpret true data

/-- Modelled from the spec: the uncached reference evaluation of the
same program — identical semantics with memoization disabled (every
cache read misses and no cache write happens). -/
def reference_interpret (data : Value) : Except String InterpState :=
  load_and_interpret false data

/-- Whole pipeline on source text: parse, encode to the tagged-document
form, interpret. -/
def runSource (src : List Char) : Except String InterpState :=
  match parse_program src with
  | .ok ast => interpret_from_json (encode ast)
  | .error _ => .error "parse error"

/-- Whole pipeline with the spec-modelled uncached reference evaluator. -/
def refRunSource (src : List Char) : Except String InterpState :=
  match parse_program src with
  | .ok ast => reference_interpret (encode ast)
  | .error _ => .error "parse error"

/-- Program output lines of a full run. -/
def runOutput (src : List Char) : Except String (List (List Char)) :=
  (runSource src).map (fun st => st.output)

/-- Program output lines of an uncached reference run. -/
def refRunOutput (src : List Char) : Except String (List (List Char)) :=
  (refRunSource src).map (fun st => st.output)



/-- The shared shape of `term` and `math_expression`: an operand parser
followed by a left fold over `many0` of (operator, operand) pairs.
`term (fuel+1)` and `math_expression (fuel+1)` are definitionally
instances of this with the respective operand and operator parsers. -/
def chainLevel (P : Parser AST) (OPS : Parser (List Char)) : Parser AST := fun input =>
  Option.bind (P input) fun x =>
  Option.bind (many0 (seq (preceded multispace0 OPS) (preceded multispace0 P)) x.1) fun y =>
  Option.some (y.1, y.2.foldl (fun acc ov => AST.binaryOp acc (String.mk ov.1) ov.2) x.2)

/-! ### Claim-side reference definitions -/

/-- Expressions built only from integer literals and the four binary
arithmetic operators. -/
def isIntArith : AST → Bool
  | .integer _ => true
  | .binaryOp l op r =>
    (op = "+" || op = "-" || op = "*" || op = "/") && isIntArith l && isIntArith r
  | _ => false

/-- Reference integer semantics of literal arithmetic: exact integer
addition, subtraction and multiplication, truncating division, and no
value on division by zero. -/
def refEval : AST → Option Int
  | .integer n => some n
  | .binaryOp l op r => do
    let a ← refEval l
    let b ← refEval r
    if op = "+" then some (a + b)
    else if op = "-" then some (a - b)
    else if op = "*" then some (a * b)
    else if op = "/" then (if b ≠ 0 then some (Int.tdiv a b) else none)
    else none
  | _ => none

/-- `i64` range check: the value is representable as a 64-bit
two's-complement integer. -/
def inI64 (n : Int) : Bool :=
  (-9223372036854775808 ≤ n) && (n < 9223372036854775808)

/-- An optional reference value fits in `i64` (the absent value — the
division-by-zero diagnostic path — raises no range question). -/
def valFits : Option Int → Bool
  | Option.some n => inI64 n
  | Option.none => true

/-- Overflow-freedom of a literal arithmetic expression: the reference
value of every subexpression fits in `i64`.  On this domain the
source's plain `i64` operations neither wrap nor panic — its behaviour
is exact and independent of the build profile (debug overflow panics,
release wrapping, and the unconditional `i64::MIN / -1` division panic
are all excluded) — so the unbounded-`Int` model coincides with the
program. -/
def noOverflow : AST → Bool
  | .integer n => inI64 n
  | .binaryOp l op r =>
    noOverflow l && noOverflow r && valFits (refEval (.binaryOp l op r))
  | _ => true

/-- Modelled from the spec: the "standard floating-point left-to-right,
precedence-respecting semantics" of the testable-properties section,
idealized over exact rationals (float arithmetic is exact on every
value exercised by the claims); division by zero yields no value. -/
def ratEval : AST → Option Rat
  | .integer n => some (n : Rat)
  | .float q => some q
  | .binaryOp l op r => do
    let a ← ratEval l
    let b ← ratEval r
    if op = "+" then some (a + b)
    else if op = "-" then some (a - b)
    else if op = "*" then some (a * b)
    else if op = "/" then (if b ≠ 0 then some (a / b) else none)
    else none
  | _ => none

/-- The document value carrying an optional integer result: `Null` for
no value, mirroring the evaluator's neutral value. -/
def resultOf : Option Int → Value
  | Option.some n => .num n
  | Option.none => .null

/-- The value `evaluate_binary_op` computes (and caches) for resolved
operands `a` and `b` under one of the four operators. -/
def opSemV (a : Option Int) (op : String) (b : Option Int) : Value :=
  match a, b with
  | Option.some i, Option.some j =>
    if op = "+" then .num (i + j)
    else if op = "-" then .num (i - j)
    else if op = "*" then .num (i * j)
    else if op = "/" then (if j ≠ 0 then .num (Int.tdiv i j) else .null)
    else .null
  | _, _ => .null

/-- Soundness of the memoization cache on arithmetic keys: an entry
stored under a binary-operation key over integer-or-null resolved
operands holds exactly the value the operation computes.  The empty
cache satisfies this, and arithmetic evaluation preserves it. -/
def ArithCacheSound (c : List (List Char × Value)) : Prop :=
  ∀ (a b : Option Int) (op : String) (v : Value),
    (op = "+" ∨ op = "-" ∨ op = "*" ∨ op = "/") →
    lookupA c (binKey (resultOf a) op (resultOf b)) = some v →
    v = opSemV a op b

/-- Fuel sufficient for the `resolve_value`/`evaluate_binary_op` pair
on the encoding of a literal arithmetic expression. -/
def arithFuel : AST → Nat
  | .binaryOp l _ r => max (arithFuel l) (arithFuel r) + 2
  | _ => 1

/-- Index of the first occurrence of `needle` in `hay` (length of `hay`
when absent; the uses below always have an occurrence). -/
def firstOccur : List Char → List Char → Nat
  | [], _ => 0
  | c :: t, needle =>
    if needle.isPrefixOf (c :: t) then 0 else firstOccur t needle + 1

/-- Number of leading lines that end at or before position `i`, given
the start offset of the current line (each line is followed by the
newline separator). -/
def clbAux : List (List Char) → Nat → Nat → Nat
  | [], _, _ => 0
  | l :: ls, start, i =>
    if start + l.length ≤ i then clbAux ls (start + l.length + 1) i + 1 else 0

/-- Modelled from the claim's wording: the 1-based line of a trailing
remainder, "computed by counting the lines that occur strictly before
the unconsumed remainder first appears, plus one". -/
def specLine (input remaining : List Char) : Nat :=
  clbAux (linesOf input) 0 (firstOccur input remaining) + 1

set_option maxRecDepth 10000

/-- The encoding always produces an object, never the `Null` marker. -/
theorem encode_ne_null (t : AST) : encode t ≠ .null := by
  cases t <;> intro h <;> exact Value.noConfusion h

/-- Decoding an optional-field document that is not the `Null` marker is
just decoding the branch. -/
theorem decodeOF_ne_null (w : Value) (h : w ≠ .null) :
    decodeOF w = (decode w).map .some := by
  rw [decodeOF, if_neg h]

/-! Round-trip lemmas for the tagged-document encoding, by mutual
structural induction over the tree.  Each step first exposes, by
definitional unfolding, the decoder branch applied to the encoded
children, then rewrites with the induction hypotheses. -/

mutual
theorem decode_encode : ∀ t : AST, decode (encode t) = some t
  | .program l => by
    rw [show decode (encode (.program l)) = (decodeL (encodeL l)).map .program from rfl,
      decodeL_encodeL l]
    rfl
  | .function n a b => by
    rw [show decode (encode (.function n a b)) =
        (match decode (encode a), decode (encode b) with
          | Option.some a', Option.some b' => some (.function n a' b')
          | _, _ => none) from rfl,
      decode_encode a, decode_encode b]
  | .functionCall n args => by
    rw [show decode (encode (.functionCall n args)) =
        (decodeL (encodeL args)).map (.functionCall n) from rfl,
      decodeL_encodeL args]
    rfl
  | .ret e => by
    rw [show decode (encode (.ret e)) = (decode (encode e)).map .ret from rfl,
      decode_encode e]
    rfl
  | .write es => by
    rw [show decode (encode (.write es)) = (decodeL (encodeL es)).map .write from rfl,
      decodeL_encodeL es]
    rfl
  | .binaryOp l op r => by
    rw [show decode (encode (.binaryOp l op r)) =
        (match decode (encode l), decode (encode r) with
          | Option.some l', Option.some r' => some (.binaryOp l' op r')
          | _, _ => none) from rfl,
      decode_encode l, decode_encode r]
  | .identifier s => rfl
  | .integer n => rfl
  | .float q => rfl
  | .bool b => rfl
  | .string s => rfl
  | .array es => by
    rw [show decode (encode (.array es)) = (decodeL (encodeL es)).map .array from rfl,
      decodeL_encodeL es]
    rfl
  | .dictionary ps => by
    rw [show decode (encode (.dictionary ps)) =
        (decodeP (encodeP ps)).map .dictionary from rfl,
      decodeP_encodeP ps]
    rfl
  | .tuple es => by
    rw [show decode (encode (.tuple es)) = (decodeL (encodeL es)).map .tuple from rfl,
      decodeL_encodeL es]
    rfl
  | .variableAssign n v => by
    rw [show decode (encode (.variableAssign n v)) =
        (decode (encode v)).map (.variableAssign n) from rfl,
      decode_encode v]
    rfl
  | .coincide e cs d => by
    rw [show decode (encode (.coincide e cs d)) =
        (match decode (encode e), decodeP (encodeP cs), decodeOF (encodeO d) with
          | Option.some e', Option.some cs', Option.some d' =>
            some (.coincide e' cs' d')
          | _, _, _ => none) from rfl,
      decode_encode e, decodeP_encodeP cs]
    cases d with
    | none => rfl
    | some a =>
      rw [show encodeO (.some a) = encode a from rfl,
        decodeOF_ne_null (encode a) (encode_ne_null a), decode_encode a]
      rfl
  | .block l => by
    rw [show decode (encode (.block l)) = (decodeL (encodeL l)).map .block from rfl,
      decodeL_encodeL l]
    rfl
  | .ifElse c t es e => by
    rw [show decode (encode (.ifElse c t es e)) =
        (match decode (encode c), decode (encode t), decodeP (encodeP es),
            decodeOF (encodeO e) with
          | Option.some c', Option.some t', Option.some es', Option.some e' =>
            some (.ifElse c' t' es' e')
          | _, _, _, _ => none) from rfl,
      decode_encode c, decode_encode t, decodeP_encodeP es]
    cases e with
    | none => rfl
    | some a =>
      rw [show encodeO (.some a) = encode a from rfl,
        decodeOF_ne_null (encode a) (encode_ne_null a), decode_encode a]
      rfl
  | .functionArgs l => by
    rw [show decode (encode (.functionArgs l)) =
        (decodeL (encodeL l)).map .functionArgs from rfl,
      decodeL_encodeL l]
    rfl
theorem decodeL_encodeL : ∀ l : ASTList, decodeL (encodeL l) = some l
  | .nil => rfl
  | .cons a tl => by
    rw [show decodeL (encodeL (.cons a tl)) =
        (match decode (encode a), decodeL (encodeL tl) with
          | Option.some a', Option.some tl' => some (.cons a' tl')
          | _, _ => none) from rfl,
      decode_encode a, decodeL_encodeL tl]
theorem decodeP_encodeP : ∀ ps : ASTPairs, decodeP (encodeP ps) = some ps
  | .nil => rfl
  | .cons a b tl => by
    rw [show decodeP (encodeP (.cons a b tl)) =
        (match decode (encode a), decode (encode b), decodeP (encodeP tl) with
          | Option.some a', Option.some b', Option.some tl' =>
            some (.cons a' b' tl')
          | _, _, _ => none) from rfl,
      decode_encode a, decode_encode b, decodeP_encodeP tl]
end

/-! ### The claims -/

/-- C1: the specification states that no evaluation-time condition
aborts a run — every runtime anomaly is a diagnostic plus a neutral
value, in particular for `write 10 / 0` and for a division by zero
inside a return statement.  The code honours this for the top-level
write (diagnostic `Error: Division by zero`, output line `null`, normal
completion) but aborts on the return case: `process_return` calls
`.as_i64().unwrap()` on the `Null` produced by the division, a panic
that kills the run.  This theorem exhibits both behaviours on the
embedded pipeline. -/
theorem c1_return_division_panics :
    runSource "f(){ return 10 / 0 }\nf()".toList = .error "panic: unwrap on None" ∧
    runOutput "write 10 / 0".toList = .ok ["null".toList] ∧
    (runSource "write 10 / 0".toList).map (fun st => st.diag) =
      .ok ["Error: Division by zero".toList] := by
  refine ⟨by decide, by decide, by decide⟩

/-- C3: there exists a program on which the textual-shape memoization
returns a stale result.  On
`x is 1; write x + 1; x is 2; write x + 1` the cached evaluator prints
`2` twice (the second write hits the cache entry keyed on the unresolved
shape of `write x + 1`), while the uncached reference evaluation prints
`2` then `3`. -/
theorem c3_stale_cache_counterprogram :
    runOutput "x is 1\nwrite x + 1\nx is 2\nwrite x + 1".toList =
      .ok ["2".toList, "2".toList] ∧
    refRunOutput "x is 1\nwrite x + 1\nx is 2\nwrite x + 1".toList =
      .ok ["2".toList, "3".toList] ∧
    runOutput "x is 1\nwrite x + 1\nx is 2\nwrite x + 1".toList ≠
      refRunOutput "x is 1\nwrite x + 1\nx is 2\nwrite x + 1".toList := by
  refine ⟨by decide, by decide, by decide⟩

/-- C4 counterexample: the claim that a variable assignment inside a
function body leaves the global binding table unchanged after the call
returns is false.  Running `a is 1; f(){ a is 2 }; f(); write a`, the
assignment in `f`'s body lands in the global table
(`process_variable_assign` writes `self.variables`): afterwards the
global `a` holds the document for `2` and the post-call write prints
`2`, while the same program without the call keeps `a` at `1`. -/
theorem c4_counterexample_global_mutation :
    (runSource "a is 1\nf(){ a is 2 }\nf()\nwrite a".toList).map
      (fun st => lookupA st.vars "a") = .ok (some (encode (.integer 2))) ∧
    runOutput "a is 1\nf(){ a is 2 }\nf()\nwrite a".toList = .ok ["2".toList] ∧
    runOutput "a is 1\nwrite a".toList = .ok ["1".toList] ∧
    encode (.integer 2) ≠ encode (.integer 1) := by
  refine ⟨by decide, by decide, by decide, by decide⟩

/-- C5: the specification's conditional semantics promise that a false
condition falls through to the first true elif branch, which then
executes alone.  The interpreter has no elif handling at all and reads
branch keys (`if_block`/`else_block`) that parsed documents do not
carry (`then_branch`/`elif_branches`/`else_branch`): on
`if 1 = 2 {} elif 1 = 1 { write "A"}` — whose elif condition `1 = 1`
the interpreter's own condition evaluator confirms as true — the run
panics unwrapping the missing `else_block` key instead of printing
`A`. -/
theorem c5_elif_branch_never_runs :
    parse_program "if 1 = 2 \x7b\x7d elif 1 = 1 \x7b write \"A\"\x7d".toList =
      .ok (.program (toASTList [.ifElse (.binaryOp (.integer 1) "=" (.integer 2))
        (.block .nil)
        (toASTPairs [(.binaryOp (.integer 1) "=" (.integer 1),
          .block (toASTList [.write (toASTList [.string "A"])]))])
        .none])) ∧
    evaluate_if_else_condition (initState true)
      (vindex (encode (.binaryOp (.integer 1) "=" (.integer 1))) "BinaryOp") =
      .ok (some true) ∧
    runSource "if 1 = 2 \x7b\x7d elif 1 = 1 \x7b write \"A\"\x7d".toList =
      .error "panic: unwrap on None" := by
  refine ⟨by decide, by decide, by decide⟩

/-- Decoding a single-key document whose tag is not a recognized
variant name is rejected. -/
theorem decode_unknown_tag (tag : String) (payload : Value)
    (h : tag ∉ recognizedTags) : decode (.obj (.cons tag payload .nil)) = none := by
  simp only [recognizedTags, List.mem_cons, List.not_mem_nil, or_false, not_or] at h
  obtain ⟨h1, h2, h3, h4, h5, h6, h7, h8, h9, h10, h11, h12, h13, h14, h15, h16,
    h17, h18, h19⟩ := h
  show (if tag = "Program" then decodeProgramP payload
    else if tag = "Function" then decodeFunctionP payload
    else if tag = "FunctionCall" then decodeFunctionCallP payload
    else if tag = "Return" then (decode payload).map .ret
    else if tag = "Write" then decodeWriteP payload
    else if tag = "BinaryOp" then decodeBinaryOpP payload
    else if tag = "Identifier" then decodeIdentifierP payload
    else if tag = "Integer" then decodeIntegerP payload
    else if tag = "Float" then decodeFloatP payload
    else if tag = "Bool" then decodeBoolP payload
    else if tag = "String" then decodeStringP payload
    else if tag = "Array" then decodeArrayP payload
    else if tag = "Dictionary" then decodeDictionaryP payload
    else if tag = "Tuple" then decodeTupleP payload
    else if tag = "VariableAssign" then decodeVariableAssignP payload
    else if tag = "Coincide" then decodeCoincideP payload
    else if tag = "Block" then decodeBlockP payload
    else if tag = "IfElse" then decodeIfElseP payload
    else if tag = "FunctionArgs" then decodeFunctionArgsP payload
    else none) = none
  rw [if_neg h1, if_neg h2, if_neg h3, if_neg h4, if_neg h5, if_neg h6, if_neg h7,
    if_neg h8, if_neg h9, if_neg h10, if_neg h11, if_neg h12, if_neg h13,
    if_neg h14, if_neg h15, if_neg h16, if_neg h17, if_neg h18, if_neg h19]

/-- C6: the tagged-document encoding round-trips losslessly — decoding
the document encoded from any constructible tree yields the identical
tree — and a document lacking a recognized variant tag is rejected
(decoding yields no tree) rather than silently accepted. -/
theorem c6_roundtrip_and_reject :
    (∀ t : AST, decode (encode t) = some t) ∧
    (∀ (tag : String) (payload : Value), tag ∉ recognizedTags →
      decode (.obj (.cons tag payload .nil)) = none) :=
  ⟨decode_encode, decode_unknown_tag⟩

/-- Witness for C6 at concrete inputs: a round trip through a binary
operation node, and rejection of an unknown `Bogus` tag. -/
theorem c6_witness :
    decode (encode (.binaryOp (.integer 1) "+" (.integer 2))) =
      some (.binaryOp (.integer 1) "+" (.integer 2)) ∧
    decode (.obj (.cons "Bogus" .null .nil)) = none :=
  ⟨c6_roundtrip_and_reject.1 (.binaryOp (.integer 1) "+" (.integer 2)),
    c6_roundtrip_and_reject.2 "Bogus" .null (by decide)⟩

/-- C8 counterexample: on the input `@@@` every statement alternative
fails at the top level, yet `parse_program` does not report a
`SyntaxError`: the statement-sequence parser succeeds with zero
statements and the failure surfaces as `UnknownToken` on the trailing
text naming line 1. -/
theorem c8_counterexample_unknown_token_not_syntax_error :
    statement 18 "@@@".toList = none ∧
    parse_program "@@@".toList = .error (.unknownToken "@@@".toList 1) := by
  refine ⟨by decide, by decide⟩

/-- C7 counterexample: on `write 1` followed by `write 1 @@@` the
parser consumes both write statements and leaves ` @@@` (line 2), but
the reported line counts every leading input line that is not a
substring of the remainder: the second line `write 1 @@@` is not a
substring of ` @@@`, so the error names line 3, while the line on which
the remainder first appears — the claim's formula — is line 2. -/
theorem c7_counterexample_line_formula :
    parse_program "write 1\nwrite 1 @@@".toList =
      .error (.unknownToken "@@@".toList 3) ∧
    program (parseFuel "write 1\nwrite 1 @@@".toList) "write 1\nwrite 1 @@@".toList =
      some (" @@@".toList,
        [.write (toASTList [.integer 1]), .write (toASTList [.integer 1])]) ∧
    specLine "write 1\nwrite 1 @@@".toList " @@@".toList = 2 ∧ (3 : Nat) ≠ 2 := by
  refine ⟨by decide, by decide, by decide, by decide⟩


/-! ### Parser evaluation lemmas

Definitional unfoldings of the combinators to explicit `Option.bind`
form (each proved by `rfl`), plus evaluation rules driven by hypotheses
about the sub-parsers.  These support the associativity and
numeric-literal claims. -/

theorem obind_some (x : α) (f : α → Option β) :
    Option.bind (Option.some x) f = f x := rfl

theorem preceded_unfold (p : Parser α) (q : Parser β) (s : List Char) :
    preceded p q s =
      match p s with
      | Option.some (r, _) => q r
      | Option.none => Option.none := rfl

theorem preceded_eval (p : Parser α) (q : Parser β) (s s1 : List Char) (a : α)
    (hp : p s = Option.some (s1, a)) : preceded p q s = q s1 := by
  rw [preceded_unfold, hp]

theorem seq_unfold (p : Parser α) (q : Parser β) (s : List Char) :
    seq p q s = Option.bind (p s) (fun x =>
      Option.bind (q x.1) (fun y => Option.some (y.1, (x.2, y.2)))) := rfl

theorem seq_none (p : Parser α) (q : Parser β) (s : List Char)
    (h : p s = Option.none) : seq p q s = Option.none := by
  rw [seq_unfold, h]
  rfl

theorem seq_eval (p : Parser α) (q : Parser β) (s s1 s2 : List Char) (a : α) (b : β)
    (hp : p s = Option.some (s1, a)) (hq : q s1 = Option.some (s2, b)) :
    seq p q s = Option.some (s2, (a, b)) := by
  rw [seq_unfold, hp]
  show Option.bind (q s1) (fun y => Option.some (y.1, (a, y.2))) = Option.some (s2, (a, b))
  rw [hq]
  rfl

theorem pmap_unfold (f : α → β) (p : Parser α) (s : List Char) :
    pmap f p s =
      match p s with
      | Option.some (r, a) => Option.some (r, f a)
      | Option.none => Option.none := rfl

theorem map_res_unfold (p : Parser α) (f : α → Option β) (s : List Char) :
    map_res p f s =
      match p s with
      | Option.some (r, a) =>
        match f a with
        | Option.some b => Option.some (r, b)
        | Option.none => Option.none
      | Option.none => Option.none := rfl

theorem multispace0_eval (s : List Char) :
    multispace0 s = Option.some ((spanP isSpaceC s).2, (spanP isSpaceC s).1) := rfl

theorem spanP_cons_pos (p : Char → Bool) (c : Char) (t : List Char) (h : p c = true) :
    spanP p (c :: t) = (c :: (spanP p t).1, (spanP p t).2) := by
  show (if p c then (c :: (spanP p t).1, (spanP p t).2) else ([], c :: t)) = _
  rw [h]
  rfl

theorem spanP_cons_neg (p : Char → Bool) (c : Char) (t : List Char) (h : p c = false) :
    spanP p (c :: t) = ([], c :: t) := by
  show (if p c then (c :: (spanP p t).1, (spanP p t).2) else ([], c :: t)) = _
  rw [h]
  rfl

theorem spanP_all (p : Char → Bool) :
    ∀ l : List Char, (∀ x ∈ l, p x = true) → spanP p l = (l, [])
  | [], _ => rfl
  | c :: t, h => by
    rw [spanP_cons_pos p c t (h c (List.mem_cons_self c t)),
      spanP_all p t (fun x hx => h x (List.mem_cons_of_mem c hx))]

theorem ms0_space_cons (c : Char) (t : List Char) (h : isSpaceC c = false) :
    multispace0 (' ' :: c :: t) = Option.some (c :: t, [' ']) := by
  rw [multispace0_eval, spanP_cons_pos isSpaceC ' ' (c :: t) rfl,
    spanP_cons_neg isSpaceC c t h]

theorem take_while1_all (p : Char → Bool) (c : Char) (t : List Char)
    (h : ∀ x ∈ c :: t, p x = true) :
    take_while1 p (c :: t) = Option.some ([], c :: t) := by
  show (match spanP p (c :: t) with
    | ([], _) => Option.none
    | (ts, r) => Option.some (r, ts)) = Option.some ([], c :: t)
  rw [spanP_all p (c :: t) h]

theorem many0Aux_succ (q : Parser α) (k : Nat) (s : List Char) :
    many0Aux q (k + 1) s =
      match q s with
      | Option.none => Option.some (s, [])
      | Option.some (rest, a) =>
        if rest.length < s.length then
          match many0Aux q k rest with
          | Option.some (r, acc) => Option.some (r, a :: acc)
          | Option.none => Option.none
        else Option.none := rfl

theorem many0Aux_mono (q : Parser α) :
    ∀ n m : Nat, n ≤ m → ∀ (s : List Char) (r : List Char × List α),
      many0Aux q n s = Option.some r → many0Aux q m s = Option.some r := by
  intro n
  induction n with
  | zero =>
    intro m _ s r h
    rw [show many0Aux q 0 s = Option.none from rfl] at h
    exact Option.noConfusion h
  | succ n ih =>
    intro m hm s r h
    obtain ⟨m2, rfl⟩ : ∃ m2, m = m2 + 1 := ⟨m - 1, by omega⟩
    rw [many0Aux_succ] at h ⊢
    cases hq : q s with
    | none =>
      rw [hq] at h
      exact h
    | some pa =>
      obtain ⟨s2, a⟩ := pa
      rw [hq] at h
      have h2 : (if s2.length < s.length then
          (match many0Aux q n s2 with
            | Option.some (r1, acc) => Option.some (r1, a :: acc)
            | Option.none => Option.none)
          else Option.none) = Option.some r := h
      show (if s2.length < s.length then
          (match many0Aux q m2 s2 with
            | Option.some (r1, acc) => Option.some (r1, a :: acc)
            | Option.none => Option.none)
          else Option.none) = Option.some r
      by_cases hlt : s2.length < s.length
      · rw [if_pos hlt] at h2 ⊢
        cases hrec : many0Aux q n s2 with
        | none =>
          rw [hrec] at h2
          exact Option.noConfusion h2
        | some rc =>
          obtain ⟨r1, acc⟩ := rc
          rw [hrec] at h2
          rw [ih m2 (by omega) s2 (r1, acc) hrec]
          exact h2
      · rw [if_neg hlt] at h2
        exact Option.noConfusion h2

theorem many0_eval_zero (q : Parser α) (s : List Char) (h : q s = Option.none) :
    many0 q s = Option.some (s, []) := by
  show many0Aux q (s.length + 1) s = Option.some (s, [])
  rw [many0Aux_succ, h]

theorem many0_eval_two (q : Parser α) (s s1 s2 : List Char) (a1 a2 : α)
    (h1 : q s = Option.some (s1, a1)) (l1 : s1.length < s.length)
    (h2 : q s1 = Option.some (s2, a2)) (l2 : s2.length < s1.length)
    (h3 : q s2 = Option.none) :
    many0 q s = Option.some (s2, [a1, a2]) := by
  have t3 : many0Aux q (0 + 1) s2 = Option.some (s2, []) := by
    rw [many0Aux_succ, h3]
  have t2 : many0Aux q (0 + 1 + 1) s1 = Option.some (s2, [a2]) := by
    rw [many0Aux_succ, h2]
    show (if s2.length < s1.length then
        (match many0Aux q (0 + 1) s2 with
          | Option.some (r, acc) => Option.some (r, a2 :: acc)
          | Option.none => Option.none)
        else Option.none) = Option.some (s2, [a2])
    rw [if_pos l2, t3]
  have t1 : many0Aux q (0 + 1 + 1 + 1) s = Option.some (s2, [a1, a2]) := by
    rw [many0Aux_succ, h1]
    show (if s1.length < s.length then
        (match many0Aux q (0 + 1 + 1) s1 with
          | Option.some (r, acc) => Option.some (r, a1 :: acc)
          | Option.none => Option.none)
        else Option.none) = Option.some (s2, [a1, a2])
    rw [if_pos l1, t2]
  exact many0Aux_mono q (0 + 1 + 1 + 1) (s.length + 1) (by omega) s _ t1

theorem seq_stop_nil (OPS : Parser (List Char)) (P : Parser AST)
    (h : OPS [] = Option.none) :
    seq (preceded multispace0 OPS) (preceded multispace0 P) [] = Option.none := by
  refine seq_none _ _ [] ?_
  rw [preceded_eval multispace0 OPS [] [] [] rfl, h]

theorem seq_stop_space (OPS : Parser (List Char)) (P : Parser AST) (o : Char)
    (x : List Char) (ho : isSpaceC o = false) (hOPS : OPS (o :: x) = Option.none) :
    seq (preceded multispace0 OPS) (preceded multispace0 P) (' ' :: o :: x) =
      Option.none := by
  refine seq_none _ _ _ ?_
  rw [preceded_eval multispace0 OPS (' ' :: o :: x) (o :: x) [' ']
    (ms0_space_cons o x ho), hOPS]

theorem seq_step (OPS : Parser (List Char)) (P : Parser AST) (o d : Char)
    (t rest : List Char) (b : AST)
    (ho : isSpaceC o = false) (hd : isSpaceC d = false)
    (hOPS : OPS (o :: ' ' :: d :: t) = Option.some (' ' :: d :: t, [o]))
    (hP : P (d :: t) = Option.some (rest, b)) :
    seq (preceded multispace0 OPS) (preceded multispace0 P) (' ' :: o :: ' ' :: d :: t) =
      Option.some (rest, ([o], b)) := by
  refine seq_eval _ _ _ (' ' :: d :: t) rest [o] b ?_ ?_
  · rw [preceded_eval multispace0 OPS _ (o :: ' ' :: d :: t) [' ']
      (ms0_space_cons o (' ' :: d :: t) ho), hOPS]
  · rw [preceded_eval multispace0 P _ (d :: t) [' '] (ms0_space_cons d t hd), hP]

theorem term_chain (fuel : Nat) (input : List Char) :
    term (fuel + 1) input =
      chainLevel (factor fuel) (alt [tagP ['*'], tagP ['/']]) input := rfl

theorem math_chain (fuel : Nat) (input : List Char) :
    math_expression (fuel + 1) input =
      chainLevel (term fuel) (alt [tagP ['+'], tagP ['-']]) input := rfl

theorem chainLevel_eval (P : Parser AST) (OPS : Parser (List Char))
    (input i1 i2 : List Char) (a : AST) (res : List (List Char × AST))
    (hP : P input = Option.some (i1, a))
    (hm : many0 (seq (preceded multispace0 OPS) (preceded multispace0 P)) i1 =
      Option.some (i2, res)) :
    chainLevel P OPS input =
      Option.some (i2, res.foldl (fun acc ov => AST.binaryOp acc (String.mk ov.1) ov.2) a) := by
  show Option.bind (P input) (fun x =>
    Option.bind (many0 (seq (preceded multispace0 OPS) (preceded multispace0 P)) x.1)
      (fun y => Option.some (y.1,
        y.2.foldl (fun acc ov => AST.binaryOp acc (String.mk ov.1) ov.2) x.2))) = _
  rw [hP]
  show Option.bind (many0 (seq (preceded multispace0 OPS) (preceded multispace0 P)) i1)
    (fun y => Option.some (y.1,
      y.2.foldl (fun acc ov => AST.binaryOp acc (String.mk ov.1) ov.2) a)) = _
  rw [hm]
  rfl

theorem chainLevel_one (P : Parser AST) (OPS : Parser (List Char))
    (input rest : List Char) (a : AST)
    (hP : P input = Option.some (rest, a))
    (hq : seq (preceded multispace0 OPS) (preceded multispace0 P) rest = Option.none) :
    chainLevel P OPS input = Option.some (rest, a) :=
  chainLevel_eval P OPS input rest rest a [] hP (many0_eval_zero _ rest hq)

theorem chainLevel_two (P : Parser AST) (OPS : Parser (List Char))
    (input t2 t3 : List Char) (d e o1 o2 : Char) (a b c : AST)
    (hP1 : P input = Option.some (' ' :: o1 :: ' ' :: d :: t2, a))
    (hP2 : P (d :: t2) = Option.some (' ' :: o2 :: ' ' :: e :: t3, b))
    (hP3 : P (e :: t3) = Option.some ([], c))
    (hOPS1 : OPS (o1 :: ' ' :: d :: t2) = Option.some (' ' :: d :: t2, [o1]))
    (hOPS2 : OPS (o2 :: ' ' :: e :: t3) = Option.some (' ' :: e :: t3, [o2]))
    (hOPS0 : OPS [] = Option.none)
    (ho1 : isSpaceC o1 = false) (ho2 : isSpaceC o2 = false)
    (hd : isSpaceC d = false) (he : isSpaceC e = false)
    (hl1 : (' ' :: o2 :: ' ' :: e :: t3).length < (' ' :: o1 :: ' ' :: d :: t2).length) :
    chainLevel P OPS input =
      Option.some ([], AST.binaryOp (AST.binaryOp a (String.mk [o1]) b)
        (String.mk [o2]) c) := by
  have q1 := seq_step OPS P o1 d t2 (' ' :: o2 :: ' ' :: e :: t3) b ho1 hd hOPS1 hP2
  have q2 := seq_step OPS P o2 e t3 [] c ho2 he hOPS2 hP3
  have q0 := seq_stop_nil OPS P hOPS0
  have hm := many0_eval_two _ _ _ _ ([o1], b) ([o2], c) q1 hl1 q2 (by simp) q0
  exact chainLevel_eval P OPS input _ [] a [([o1], b), ([o2], c)] hP1 hm

theorem tagP_head_eq (c : Char) (x : List Char) :
    tagP [c] (c :: x) = Option.some (x, [c]) := by
  have hp : List.isPrefixOf [c] (c :: x) = true := by simp [List.isPrefixOf]
  show (if List.isPrefixOf [c] (c :: x) = true
      then Option.some ((c :: x).drop [c].length, [c]) else Option.none) =
    Option.some (x, [c])
  rw [hp]
  rfl

theorem tagP_head_ne (c c2 : Char) (x : List Char) (h : (c == c2) = false) :
    tagP [c] (c2 :: x) = Option.none := by
  have hp : List.isPrefixOf [c] (c2 :: x) = false := by simp [List.isPrefixOf, h]
  show (if List.isPrefixOf [c] (c2 :: x) = true
      then Option.some ((c2 :: x).drop [c].length, [c]) else Option.none) = Option.none
  rw [hp]
  rfl

theorem altMulDiv_some (o : Char) (h : o = '*' ∨ o = '/') (x : List Char) :
    alt [tagP ['*'], tagP ['/']] (o :: x) = Option.some (x, [o]) := by
  obtain rfl | rfl := h
  · simp only [alt, tagP_head_eq]
  · simp only [alt, tagP_head_ne '*' '/' x rfl, tagP_head_eq]

theorem altMulDiv_none (o : Char) (h : o = '+' ∨ o = '-') (x : List Char) :
    alt [tagP ['*'], tagP ['/']] (o :: x) = Option.none := by
  obtain rfl | rfl := h
  · simp only [alt, tagP_head_ne '*' '+' x rfl, tagP_head_ne '/' '+' x rfl]
  · simp only [alt, tagP_head_ne '*' '-' x rfl, tagP_head_ne '/' '-' x rfl]

theorem altAddSub_some (o : Char) (h : o = '+' ∨ o = '-') (x : List Char) :
    alt [tagP ['+'], tagP ['-']] (o :: x) = Option.some (x, [o]) := by
  obtain rfl | rfl := h
  · simp only [alt, tagP_head_eq]
  · simp only [alt, tagP_head_ne '+' '-' x rfl, tagP_head_eq]

theorem altMulDiv_nil : alt [tagP ['*'], tagP ['/']] ([] : List Char) = Option.none := rfl

theorem altAddSub_nil : alt [tagP ['+'], tagP ['-']] ([] : List Char) = Option.none := rfl

theorem array_literal_nil (k : Nat) : array_literal k [] = Option.none := by
  cases k with | zero => rfl | succ k => rfl

theorem dictionary_literal_nil (k : Nat) : dictionary_literal k [] = Option.none := by
  cases k with | zero => rfl | succ k => rfl

theorem paren_nil (k : Nat) : parenthesized_expression k [] = Option.none := by
  cases k with | zero => rfl | succ k => rfl

theorem float_nil : float [] = Option.none := rfl

theorem integer_nil : integer [] = Option.none := rfl

theorem boolean_nil : boolean [] = Option.none := rfl

theorem identifier_nil : identifier [] = Option.none := rfl

theorem string_literal_nil : string_literal [] = Option.none := rfl

theorem factor_nil (k : Nat) : factor k [] = Option.none := by
  cases k with
  | zero => rfl
  | succ k =>
    show alt [float, integer, boolean, identifier, string_literal, array_literal k,
      dictionary_literal k, parenthesized_expression k] [] = Option.none
    simp only [alt, float_nil, integer_nil, boolean_nil, identifier_nil,
      string_literal_nil, array_literal_nil, dictionary_literal_nil, paren_nil]

theorem factor_space (k : Nat) (c : Char) (t : List Char) (h : isSpaceC c = true) :
    factor k (c :: t) = Option.none := by
  have h4 : ((c = ' ' ∨ c = '\t') ∨ c = '\r') ∨ c = '\n' := by
    simpa [isSpaceC] using h
  obtain ((rfl | rfl) | rfl) | rfl := h4 <;>
    exact match k with | 0 => rfl | 1 => rfl | _ + 2 => rfl

theorem lowerC_small (c : Char) (h : c.toNat < 65) : lowerC c = c := by
  rw [lowerC, if_neg (show ¬(65 ≤ c.toNat ∧ c.toNat ≤ 90) by omega)]

theorem boolean_digit_none (c : Char) (t : List Char) (h : isDigitC c = true) :
    boolean (c :: t) = Option.none := by
  have h57 : 48 ≤ c.toNat ∧ c.toNat ≤ 57 := by simpa [isDigitC] using h
  have hlc : lowerC c = c := lowerC_small c (by omega)
  have ht : ('t' == lowerC c) = false := by
    rw [hlc]
    simp only [beq_eq_false_iff_ne]
    intro heq
    rw [← heq] at h57
    exact absurd h57.2 (by decide)
  have hf : ('f' == lowerC c) = false := by
    rw [hlc]
    simp only [beq_eq_false_iff_ne]
    intro heq
    rw [← heq] at h57
    exact absurd h57.2 (by decide)
  have htag1 : tag_no_case "true".toList (c :: t) = Option.none := by
    show (if (('t' == lowerC c) && List.isPrefixOf ['r', 'u', 'e'] (t.map lowerC)) = true
        then Option.some ((c :: t).drop 4, (c :: t).take 4)
        else Option.none) = Option.none
    rw [ht]
    rfl
  have htag2 : tag_no_case "false".toList (c :: t) = Option.none := by
    show (if (('f' == lowerC c) && List.isPrefixOf ['a', 'l', 's', 'e'] (t.map lowerC)) = true
        then Option.some ((c :: t).drop 5, (c :: t).take 5)
        else Option.none) = Option.none
    rw [hf]
    rfl
  have hb1 : pmap (fun _ => AST.bool true) (tag_no_case "true".toList) (c :: t) =
      Option.none := by
    rw [pmap_unfold, htag1]
  have hb2 : pmap (fun _ => AST.bool false) (tag_no_case "false".toList) (c :: t) =
      Option.none := by
    rw [pmap_unfold, htag2]
  show alt [pmap (fun _ => AST.bool true) (tag_no_case "true".toList),
    pmap (fun _ => AST.bool false) (tag_no_case "false".toList)] (c :: t) = Option.none
  simp only [alt, hb1, hb2]

theorem isIdentC_of_digit (c : Char) (h : isDigitC c = true) : isIdentC c = true := by
  have h2 : 48 ≤ c.toNat ∧ c.toNat ≤ 57 := by simpa [isDigitC] using h
  simp only [isIdentC, isAlnumC, Bool.or_eq_true, Bool.and_eq_true, decide_eq_true_eq]
  exact Or.inl (Or.inr h2)

theorem float_unfold (s : List Char) :
    float s = Option.bind (digit1 s) (fun x =>
      Option.bind (tagP ['.'] x.1) (fun y =>
        Option.bind (digit1 y.1) (fun z =>
          Option.some (z.1, AST.float ((digitsToNat x.2 : Rat) +
            mkRat (digitsToNat z.2) (10 ^ z.2.length)))))) := rfl

theorem integer_unfold (s : List Char) :
    integer s = pmap AST.integer (map_res digit1 i32_from_str) s := rfl

theorem identifier_unfold (s : List Char) :
    identifier s =
      pmap (fun cs => AST.identifier (String.mk cs)) (take_while1 isIdentC) s := rfl

/-- C10: a bare digit sequence whose value exceeds `i32::MAX` is neither
an integer literal nor a parse failure: `float` and `integer` reject it
(the checked 32-bit conversion fails), `boolean` rejects it, and the
later `identifier` alternative — which accepts alphanumeric characters —
consumes all the digits, so the factor parses as an Identifier node
holding the digit string. -/
theorem c10_overflow_digits_parse_as_identifier (n : Nat) (ds : List Char)
    (hne : ds ≠ []) (hdig : ∀ c ∈ ds, isDigitC c = true)
    (hbig : 2147483647 < digitsToNat ds) :
    factor (n + 1) ds = Option.some ([], AST.identifier (String.mk ds)) := by
  obtain ⟨c, t, rfl⟩ : ∃ c t, ds = c :: t := by
    cases ds with
    | nil => exact absurd rfl hne
    | cons c t => exact ⟨c, t, rfl⟩
  have hd1 : digit1 (c :: t) = Option.some ([], c :: t) :=
    take_while1_all isDigitC c t hdig
  have hfl : float (c :: t) = Option.none := by
    rw [float_unfold, hd1]
    rfl
  have h32 : i32_from_str (c :: t) = Option.none := by
    rw [i32_from_str, if_neg (show ¬(digitsToNat (c :: t) ≤ 2147483647) by omega)]
  have hmr : map_res digit1 i32_from_str (c :: t) = Option.none := by
    simp only [map_res_unfold, hd1, h32]
  have hint : integer (c :: t) = Option.none := by
    simp only [integer_unfold, pmap_unfold, hmr]
  have hbool : boolean (c :: t) = Option.none :=
    boolean_digit_none c t (hdig c (List.mem_cons_self c t))
  have hid : identifier (c :: t) = Option.some ([], AST.identifier (String.mk (c :: t))) := by
    simp only [identifier_unfold, pmap_unfold, take_while1_all isIdentC c t
      (fun x hx => isIdentC_of_digit x (hdig x hx))]
  show alt [float, integer, boolean, identifier, string_literal, array_literal n,
    dictionary_literal n, parenthesized_expression n] (c :: t) =
    Option.some ([], AST.identifier (String.mk (c :: t)))
  simp only [alt, hfl, hint, hbool, hid]

/-- Witness for C10 at the concrete literal `2147483648` (one above
`i32::MAX`), parsed as an Identifier node. -/
theorem c10_witness :
    ("2147483648".toList ≠ [] ∧ (∀ c ∈ "2147483648".toList, isDigitC c = true) ∧
      2147483647 < digitsToNat "2147483648".toList) ∧
    factor 1 "2147483648".toList =
      Option.some ([], AST.identifier (String.mk "2147483648".toList)) :=
  ⟨⟨by decide, by decide, by decide⟩,
    c10_overflow_digits_parse_as_identifier 0 "2147483648".toList
      (by decide) (by decide) (by decide)⟩

/-- C9: binary operators at the same precedence level are
left-associative.  Whenever the factor parser recognizes operands `a`,
`b`, `c` at the three positions of `a op1 b op2 c` (single spaces
around the operators) and the two operators sit at the same precedence
level — both multiplicative (`*`/`/`) or both additive (`+`/`-`) — the
math-expression parser consumes the whole input and produces the
left-nested tree BinaryOp(BinaryOp(a, op1, b), op2, c). -/
theorem c9_same_precedence_left_assoc (n : Nat) (s1 s2 s3 : List Char)
    (o1 o2 : Char) (a b c : AST)
    (hops : (o1 = '*' ∨ o1 = '/') ∧ (o2 = '*' ∨ o2 = '/') ∨
            (o1 = '+' ∨ o1 = '-') ∧ (o2 = '+' ∨ o2 = '-'))
    (hf1 : factor n (s1 ++ ' ' :: o1 :: ' ' :: (s2 ++ ' ' :: o2 :: ' ' :: s3)) =
      Option.some (' ' :: o1 :: ' ' :: (s2 ++ ' ' :: o2 :: ' ' :: s3), a))
    (hf2 : factor n (s2 ++ ' ' :: o2 :: ' ' :: s3) =
      Option.some (' ' :: o2 :: ' ' :: s3, b))
    (hf3 : factor n s3 = Option.some ([], c)) :
    math_expression (n + 1 + 1) (s1 ++ ' ' :: o1 :: ' ' :: (s2 ++ ' ' :: o2 :: ' ' :: s3)) =
      Option.some ([], AST.binaryOp (AST.binaryOp a (String.mk [o1]) b)
        (String.mk [o2]) c) := by
  obtain ⟨d, t2, rfl⟩ : ∃ d t2, s2 = d :: t2 := by
    cases s2 with
    | nil =>
      rw [List.nil_append, factor_space n ' ' (o2 :: ' ' :: s3) rfl] at hf2
      exact Option.noConfusion hf2
    | cons d t2 => exact ⟨d, t2, rfl⟩
  obtain ⟨e, t3, rfl⟩ : ∃ e t3, s3 = e :: t3 := by
    cases s3 with
    | nil =>
      rw [factor_nil n] at hf3
      exact Option.noConfusion hf3
    | cons e t3 => exact ⟨e, t3, rfl⟩
  rw [List.cons_append] at hf1 hf2 ⊢
  have hd : isSpaceC d = false := by
    by_cases hsp : isSpaceC d = true
    · rw [factor_space n d (t2 ++ ' ' :: o2 :: ' ' :: e :: t3) hsp] at hf2
      exact Option.noConfusion hf2
    · simpa using hsp
  have he : isSpaceC e = false := by
    by_cases hsp : isSpaceC e = true
    · rw [factor_space n e t3 hsp] at hf3
      exact Option.noConfusion hf3
    · simpa using hsp
  have hlen : (' ' :: o2 :: ' ' :: e :: t3).length <
      (' ' :: o1 :: ' ' :: d :: (t2 ++ ' ' :: o2 :: ' ' :: e :: t3)).length := by
    simp [List.length_cons, List.length_append]
    omega
  obtain ⟨ho1, ho2⟩ | ⟨ho1, ho2⟩ := hops
  · have hsp1 : isSpaceC o1 = false := by obtain rfl | rfl := ho1 <;> rfl
    have hsp2 : isSpaceC o2 = false := by obtain rfl | rfl := ho2 <;> rfl
    have hterm : term (n + 1)
        (s1 ++ ' ' :: o1 :: ' ' :: d :: (t2 ++ ' ' :: o2 :: ' ' :: e :: t3)) =
        Option.some ([], AST.binaryOp (AST.binaryOp a (String.mk [o1]) b)
          (String.mk [o2]) c) := by
      rw [term_chain]
      exact chainLevel_two (factor n) (alt [tagP ['*'], tagP ['/']]) _ _ t3 d e o1 o2
        a b c hf1 hf2 hf3 (altMulDiv_some o1 ho1 _) (altMulDiv_some o2 ho2 _)
        altMulDiv_nil hsp1 hsp2 hd he hlen
    rw [math_chain]
    exact chainLevel_one (term (n + 1)) (alt [tagP ['+'], tagP ['-']]) _ [] _ hterm
      (seq_stop_nil _ _ altAddSub_nil)
  · have hsp1 : isSpaceC o1 = false := by obtain rfl | rfl := ho1 <;> rfl
    have hsp2 : isSpaceC o2 = false := by obtain rfl | rfl := ho2 <;> rfl
    have ht1 : term (n + 1)
        (s1 ++ ' ' :: o1 :: ' ' :: d :: (t2 ++ ' ' :: o2 :: ' ' :: e :: t3)) =
        Option.some (' ' :: o1 :: ' ' :: d :: (t2 ++ ' ' :: o2 :: ' ' :: e :: t3), a) := by
      rw [term_chain]
      exact chainLevel_one _ _ _ _ _ hf1
        (seq_stop_space _ _ o1 _ hsp1 (altMulDiv_none o1 ho1 _))
    have ht2 : term (n + 1) (d :: (t2 ++ ' ' :: o2 :: ' ' :: e :: t3)) =
        Option.some (' ' :: o2 :: ' ' :: e :: t3, b) := by
      rw [term_chain]
      exact chainLevel_one _ _ _ _ _ hf2
        (seq_stop_space _ _ o2 _ hsp2 (altMulDiv_none o2 ho2 _))
    have ht3 : term (n + 1) (e :: t3) = Option.some ([], c) := by
      rw [term_chain]
      exact chainLevel_one _ _ _ _ _ hf3 (seq_stop_nil _ _ altMulDiv_nil)
    rw [math_chain]
    exact chainLevel_two (term (n + 1)) (alt [tagP ['+'], tagP ['-']]) _ _ t3 d e o1 o2
      a b c ht1 ht2 ht3 (altAddSub_some o1 ho1 _) (altAddSub_some o2 ho2 _)
      altAddSub_nil hsp1 hsp2 hd he hlen

/-- Witness for C9 at the concrete input `1 - 2 - 3`, which parses as
`(1 - 2) - 3`. -/
theorem c9_witness :
    math_expression 3 "1 - 2 - 3".toList =
      Option.some ([], AST.binaryOp
        (AST.binaryOp (AST.integer 1) "-" (AST.integer 2)) "-" (AST.integer 3)) :=
  c9_same_precedence_left_assoc 1 "1".toList "2".toList "3".toList '-' '-'
    (AST.integer 1) (AST.integer 2) (AST.integer 3)
    (Or.inr ⟨Or.inr rfl, Or.inr rfl⟩) (by decide) (by decide) (by decide)



/-! ### Line-reporting lemmas for parse_program -/

theorem containsSub_of_prefix (cs needle : List Char)
    (h : List.isPrefixOf needle cs = true) : containsSub cs needle = true := by
  cases cs with
  | nil =>
    rw [containsSub]
    exact h
  | cons c t =>
    rw [containsSub, h]
    exact Bool.true_or _

theorem splitNl_head_prefix :
    ∀ cs : List Char, ∃ seg segs, splitNl cs = seg :: segs ∧
      List.isPrefixOf seg cs = true
  | [] => ⟨[], [], rfl, by simp [List.isPrefixOf]⟩
  | c :: rest => by
    rw [splitNl]
    by_cases hc : c = '\n'
    · rw [if_pos hc]
      exact ⟨[], splitNl rest, rfl, by simp [List.isPrefixOf]⟩
    · rw [if_neg hc]
      obtain ⟨seg, segs, hsp, hpre⟩ := splitNl_head_prefix rest
      rw [hsp]
      exact ⟨c :: seg, segs, rfl, by simp [List.isPrefixOf, hpre]⟩

theorem containsSub_mem_splitNl :
    ∀ cs : List Char, ∀ seg ∈ splitNl cs, containsSub cs seg = true := by
  intro cs
  induction cs with
  | nil =>
    intro seg h
    simp [splitNl] at h
    subst h
    decide
  | cons c rest ih =>
    intro seg h
    rw [splitNl] at h
    by_cases hc : c = '\n'
    · rw [if_pos hc] at h
      rcases List.mem_cons.mp h with rfl | hm
      · exact containsSub_of_prefix (c :: rest) [] (by simp [List.isPrefixOf])
      · rw [containsSub, ih seg hm]
        simp
    · rw [if_neg hc] at h
      obtain ⟨seg0, segs, hsp, hpre⟩ := splitNl_head_prefix rest
      rw [hsp] at h
      rcases List.mem_cons.mp h with rfl | hm
      · refine containsSub_of_prefix _ _ ?_
        simp [List.isPrefixOf, hpre]
      · have hm2 : seg ∈ splitNl rest := by
          rw [hsp]
          exact List.mem_cons_of_mem _ hm
        rw [containsSub, ih seg hm2]
        simp

theorem takeWhile_linesOf_nil (input : List Char) :
    (linesOf input).takeWhile (fun l => !(containsSub input l)) = [] := by
  cases input with
  | nil => rfl
  | cons c rest =>
    obtain ⟨seg0, segs, hsp, hpre⟩ := splitNl_head_prefix (c :: rest)
    have hc0 : containsSub (c :: rest) seg0 = true := containsSub_of_prefix _ _ hpre
    rw [linesOf]
    by_cases hl : (c :: rest).getLast? = some '\n'
    · rw [if_pos hl, hsp]
      cases segs with
      | nil => rfl
      | cons s2 segs2 => simp [List.dropLast, List.takeWhile_cons, hc0]
    · rw [if_neg hl, hsp]
      simp [List.takeWhile_cons, hc0]
    · exact fun hh => List.noConfusion hh

/-- C7 amended: for an input whose statement-sequence parse succeeds but
leaves a remainder with non-whitespace content, `parse_program` reports
`UnknownToken` carrying the trimmed remainder — but the 1-based line it
names is computed by counting the leading input lines that are NOT
substrings of the remainder, plus one (the code formula), not by
locating where the remainder first appears. -/
theorem c7_amended_line_formula (input remaining : List Char) (asts : List AST)
    (hp : program (parseFuel input) input = Option.some (remaining, asts))
    (ht : trim remaining ≠ []) :
    parse_program input = .error (.unknownToken (trim remaining)
      (((linesOf input).takeWhile (fun l => !(containsSub remaining l))).length + 1)) := by
  simp only [parse_program, hp]
  rw [if_neg ht]

/-- Witness for the amended C7 at `write 1` + newline + `@@@`: the code
formula names line 2 here, agreeing with the specification example. -/
theorem c7_amended_witness :
    (program (parseFuel "write 1\n@@@".toList) "write 1\n@@@".toList =
      Option.some ("\n@@@".toList, [AST.write (toASTList [AST.integer 1])]) ∧
     trim "\n@@@".toList ≠ [] ∧
     (((linesOf "write 1\n@@@".toList).takeWhile
        (fun l => !(containsSub "\n@@@".toList l))).length + 1) = 2) ∧
    parse_program "write 1\n@@@".toList =
      .error (.unknownToken (trim "\n@@@".toList)
        (((linesOf "write 1\n@@@".toList).takeWhile
          (fun l => !(containsSub "\n@@@".toList l))).length + 1)) :=
  ⟨⟨by decide, by decide, by decide⟩,
    c7_amended_line_formula "write 1\n@@@".toList "\n@@@".toList
      [AST.write (toASTList [AST.integer 1])] (by decide) (by decide)⟩

/-- C8 amended: when the statement alternative fails at the top of the
input (and the input has non-whitespace content), `parse_program` does
not report a `SyntaxError`: the statement-sequence parser still succeeds
consuming nothing, and the result is an `UnknownToken` carrying the
trimmed input and naming line 1 — the first line is always a substring
of the untouched remainder, so the line count is zero. -/
theorem c8_amended_no_syntax_error (input : List Char)
    (hs : preceded multispace0 (statement (input.length + 15)) input = Option.none)
    (ht : trim input ≠ []) :
    parse_program input = .error (.unknownToken (trim input) 1) := by
  have hprog : program (parseFuel input) input = Option.some (input, []) := by
    show many0 (preceded multispace0 (statement (input.length + 15))) input =
      Option.some (input, [])
    exact many0_eval_zero _ input hs
  simp only [parse_program, hprog]
  rw [if_neg ht, takeWhile_linesOf_nil input]
  rfl

/-- Witness for the amended C8 at the input `@@@`, on which every
statement alternative fails. -/
theorem c8_amended_witness :
    (preceded multispace0 (statement ("@@@".toList.length + 15)) "@@@".toList =
      Option.none ∧ trim "@@@".toList ≠ []) ∧
    parse_program "@@@".toList = .error (.unknownToken (trim "@@@".toList) 1) :=
  ⟨⟨by decide, by decide⟩,
    c8_amended_no_syntax_error "@@@".toList (by decide) (by decide)⟩



/-! ### The amended function-call scope property (C4) -/

theorem exbind_ok {ε α β : Type} (x : α) (f : α → Except ε β) :
    (Except.ok x : Except ε α) >>= f = f x := rfl

/-- C4 amended: a function call builds its local scope exactly by
snapshotting the caller-visible (global) bindings and overlaying the
formal-parameter bindings, and the body executes against that scope —
but a variable assignment executed in the body writes the global
binding table directly (the new binding persists after the call), so
the claim's "leaves the global binding table unchanged" clause fails
while the snapshot-and-overlay clause holds. -/
theorem c4_amended_scope_and_global_mutation :
    (∀ (st : InterpState) (element : Value) (call_obj : Fields) (nm : String)
        (func : FuncDef) (argsV : Value) (args : ValueList),
      (vget element "FunctionCall").bind as_object = Option.some call_obj →
      (fget call_obj "name").bind as_str = Option.some nm →
      lookupA st.functions nm = Option.some func →
      fget call_obj "args" = Option.some argsV →
      as_array argsV = Option.some args →
      vlLength args = func.args.length →
      process_function_call st element =
        execute_function_body st func.body
          (extendScope st.vars (zipScope func.args args))) ∧
    (∀ (st : InterpState) (x : String) (e : AST),
      cacheGet st ("VariableAssign:".toList ++ dbgMap (Fields.cons "name" (Value.str x)
        (Fields.cons "value" (encode e) Fields.nil))) = Option.none →
      process_variable_assign st (encode (.variableAssign x e)) =
        .ok (cachePut { st with vars := upsertA st.vars x (encode e) }
          ("VariableAssign:".toList ++ dbgMap (Fields.cons "name" (Value.str x)
            (Fields.cons "value" (encode e) Fields.nil))) (encode e))) := by
  constructor
  · intro st element call_obj nm func argsV args hcall hname hfunc hargs harr hlen
    simp only [process_function_call, hcall, hname, hfunc, hargs, harr, unwrapO,
      exbind_ok, hlen, eq_self_iff_true, if_true]
  · intro st x e hmiss
    simp only [process_variable_assign,
      show (vget (encode (.variableAssign x e)) "VariableAssign").bind as_object =
        Option.some (Fields.cons "name" (Value.str x)
          (Fields.cons "value" (encode e) Fields.nil)) from rfl,
      show fget (Fields.cons "name" (Value.str x)
          (Fields.cons "value" (encode e) Fields.nil)) "name" =
        Option.some (Value.str x) from rfl,
      show as_str (Value.str x) = Option.some x from rfl,
      show fget (Fields.cons "name" (Value.str x)
          (Fields.cons "value" (encode e) Fields.nil)) "value" =
        Option.some (encode e) from rfl,
      unwrapO, exbind_ok, hmiss]

/-- Witness for the amended C4: a one-parameter function called on one
argument executes against the snapshot-plus-overlay scope, and a
concrete assignment on the empty-cache initial state lands in the
global table. -/
theorem c4_amended_witness :
    process_function_call
      { initState true with
          functions := [("f", ⟨"f", ["p"],
            encode (.block (toASTList [AST.write (toASTList [AST.identifier "p"])]))⟩)],
          vars := [("a", encode (.integer 1))] }
      (encode (.functionCall "f" (toASTList [AST.integer 7]))) =
      execute_function_body
        { initState true with
            functions := [("f", ⟨"f", ["p"],
              encode (.block (toASTList [AST.write (toASTList [AST.identifier "p"])]))⟩)],
            vars := [("a", encode (.integer 1))] }
        (encode (.block (toASTList [AST.write (toASTList [AST.identifier "p"])])))
        (extendScope [("a", encode (.integer 1))]
          (zipScope ["p"] (encodeL (toASTList [AST.integer 7])))) ∧
    process_variable_assign (initState true) (encode (.variableAssign "a" (.integer 2))) =
      .ok (cachePut { initState true with
          vars := upsertA (initState true).vars "a" (encode (.integer 2)) }
        ("VariableAssign:".toList ++ dbgMap (Fields.cons "name" (Value.str "a")
          (Fields.cons "value" (encode (.integer 2)) Fields.nil)))
        (encode (.integer 2))) :=
  ⟨c4_amended_scope_and_global_mutation.1
      { initState true with
          functions := [("f", ⟨"f", ["p"],
            encode (.block (toASTList [AST.write (toASTList [AST.identifier "p"])]))⟩)],
          vars := [("a", encode (.integer 1))] }
      (encode (.functionCall "f" (toASTList [AST.integer 7])))
      (Fields.cons "name" (Value.str "f")
        (Fields.cons "args" (Value.arr (encodeL (toASTList [AST.integer 7]))) Fields.nil))
      "f"
      ⟨"f", ["p"], encode (.block (toASTList [AST.write (toASTList [AST.identifier "p"])]))⟩
      (Value.arr (encodeL (toASTList [AST.integer 7])))
      (encodeL (toASTList [AST.integer 7]))
      (by decide) (by decide) (by decide) (by decide) (by decide) (by decide),
    c4_amended_scope_and_global_mutation.2 (initState true) "a" (.integer 2) (by decide)⟩



/-! ### Decimal rendering: digits, value and injectivity -/

theorem digitChar_isDigit (d : Nat) (h : d < 10) : isDigitC (digitChar d) = true := by
  interval_cases d <;> decide

theorem digitChar_toNat (d : Nat) (h : d < 10) : (digitChar d).toNat = 48 + d := by
  interval_cases d <;> decide

theorem renderNatAux_digits : ∀ (fuel n : Nat), ∀ c ∈ renderNatAux fuel n,
    isDigitC c = true := by
  intro fuel
  induction fuel with
  | zero => intro n c hc; simp [renderNatAux] at hc
  | succ fuel ih =>
    intro n c hc
    rw [renderNatAux] at hc
    by_cases hn : n < 10
    · rw [if_pos hn] at hc
      rw [List.mem_singleton] at hc
      subst hc
      exact digitChar_isDigit n hn
    · rw [if_neg hn] at hc
      rcases List.mem_append.mp hc with h1 | h2
      · exact ih (n / 10) c h1
      · rw [List.mem_singleton] at h2
        subst h2
        exact digitChar_isDigit (n % 10) (Nat.mod_lt n (by omega))

theorem renderNat_digits (n : Nat) : ∀ c ∈ renderNat n, isDigitC c = true :=
  renderNatAux_digits (n + 1) n

theorem renderNatAux_ne_nil (fuel n : Nat) (h : n < fuel) : renderNatAux fuel n ≠ [] := by
  cases fuel with
  | zero => omega
  | succ fuel =>
    rw [renderNatAux]
    by_cases hn : n < 10
    · rw [if_pos hn]
      exact fun hh => List.noConfusion hh
    · rw [if_neg hn]
      simp

theorem renderNat_ne_nil (n : Nat) : renderNat n ≠ [] :=
  renderNatAux_ne_nil (n + 1) n (by omega)

theorem digitsToNat_append (xs : List Char) (c : Char) :
    digitsToNat (xs ++ [c]) = 10 * digitsToNat xs + (c.toNat - 48) := by
  simp [digitsToNat, List.foldl_append]

theorem renderNatAux_val : ∀ (fuel n : Nat), n < fuel →
    digitsToNat (renderNatAux fuel n) = n := by
  intro fuel
  induction fuel with
  | zero => intro n h; omega
  | succ fuel ih =>
    intro n h
    rw [renderNatAux]
    by_cases hn : n < 10
    · rw [if_pos hn]
      interval_cases n <;> decide
    · rw [if_neg hn]
      have hlt : n / 10 < fuel := by
        have := Nat.div_lt_self (show 0 < n by omega) (show 1 < 10 by omega)
        omega
      rw [digitsToNat_append, ih (n / 10) hlt,
        digitChar_toNat (n % 10) (Nat.mod_lt n (by omega))]
      omega

theorem renderNat_val (n : Nat) : digitsToNat (renderNat n) = n :=
  renderNatAux_val (n + 1) n (by omega)

theorem renderNat_inj (m n : Nat) (h : renderNat m = renderNat n) : m = n := by
  have h2 := renderNat_val m
  rw [h, renderNat_val] at h2
  omega

theorem renderInt_inj (i j : Int) (h : renderInt i = renderInt j) : i = j := by
  rw [renderInt, renderInt] at h
  by_cases hi : i < 0 <;> by_cases hj : j < 0
  · rw [if_pos hi, if_pos hj] at h
    injection h with h1 h2
    have := renderNat_inj _ _ h2
    omega
  · rw [if_pos hi, if_neg hj] at h
    exfalso
    obtain ⟨c, t, hct⟩ : ∃ c t, renderNat j.toNat = c :: t := by
      cases hh : renderNat j.toNat with
      | nil => exact absurd hh (renderNat_ne_nil _)
      | cons c t => exact ⟨c, t, rfl⟩
    rw [hct] at h
    injection h with h1 _
    have hd := renderNat_digits j.toNat c (by rw [hct]; exact List.mem_cons_self _ _)
    rw [← h1] at hd
    exact absurd hd (by decide)
  · rw [if_neg hi, if_pos hj] at h
    exfalso
    obtain ⟨c, t, hct⟩ : ∃ c t, renderNat i.toNat = c :: t := by
      cases hh : renderNat i.toNat with
      | nil => exact absurd hh (renderNat_ne_nil _)
      | cons c t => exact ⟨c, t, rfl⟩
    rw [hct] at h
    injection h with h1 _
    have hd := renderNat_digits i.toNat c (by rw [hct]; exact List.mem_cons_self _ _)
    rw [h1] at hd
    exact absurd hd (by decide)
  · rw [if_neg hi, if_neg hj] at h
    have := renderNat_inj _ _ h
    omega

/-! ### The binary-operation cache key is injective on arithmetic results -/

theorem renderInt_nospace (i : Int) : ∀ c ∈ renderInt i, c ≠ ' ' := by
  intro c hc heq
  subst heq
  rw [renderInt] at hc
  by_cases hi : i < 0
  · rw [if_pos hi] at hc
    rcases List.mem_cons.mp hc with h1 | h2
    · exact absurd h1 (by decide)
    · exact absurd (renderNat_digits i.natAbs ' ' h2) (by decide)
  · rw [if_neg hi] at hc
    exact absurd (renderNat_digits i.toNat ' ' hc) (by decide)

theorem dbg_resultOf_nospace (a : Option Int) : ∀ c ∈ dbgValue (resultOf a), c ≠ ' ' := by
  cases a with
  | none =>
    intro c hc heq
    subst heq
    exact absurd (hc : ' ' ∈ "Null".toList) (by decide)
  | some i =>
    intro c hc heq
    subst heq
    rcases List.mem_append.mp (hc : ' ' ∈ ("Number(".toList ++ renderInt i) ++ ")".toList)
      with h1 | h2
    · rcases List.mem_append.mp h1 with h1a | h1b
      · exact absurd h1a (by decide)
      · exact renderInt_nospace i ' ' h1b rfl
    · exact absurd h2 (by decide)

theorem resultOf_inj (a b : Option Int) (h : resultOf a = resultOf b) : a = b := by
  cases a with
  | none =>
    cases b with
    | none => rfl
    | some j => exact absurd h (fun hh => Value.noConfusion hh)
  | some i =>
    cases b with
    | none => exact absurd h (fun hh => Value.noConfusion hh)
    | some j =>
      injection h with h1
      rw [h1]

theorem dbg_resultOf_inj (a b : Option Int)
    (h : dbgValue (resultOf a) = dbgValue (resultOf b)) : resultOf a = resultOf b := by
  cases a with
  | none =>
    cases b with
    | none => rfl
    | some j =>
      exfalso
      rw [show dbgValue (resultOf Option.none) = ['N', 'u', 'l', 'l'] from rfl,
        show dbgValue (resultOf (Option.some j)) =
          (['N', 'u', 'm', 'b', 'e', 'r', '('] ++ renderInt j) ++ [')'] from rfl] at h
      simp at h
  | some i =>
    cases b with
    | none =>
      exfalso
      rw [show dbgValue (resultOf (Option.some i)) =
          (['N', 'u', 'm', 'b', 'e', 'r', '('] ++ renderInt i) ++ [')'] from rfl,
        show dbgValue (resultOf Option.none) = ['N', 'u', 'l', 'l'] from rfl] at h
      simp at h
    | some j =>
      rw [show dbgValue (resultOf (Option.some i)) =
          (['N', 'u', 'm', 'b', 'e', 'r', '('] ++ renderInt i) ++ [')'] from rfl,
        show dbgValue (resultOf (Option.some j)) =
          (['N', 'u', 'm', 'b', 'e', 'r', '('] ++ renderInt j) ++ [')'] from rfl] at h
      have h2 : renderInt i ++ [')'] = renderInt j ++ [')'] := by
        simpa [List.append_assoc] using h
      have h3 : renderInt i = renderInt j := by
        have e1 : (renderInt i).length = (renderInt j).length := by
          have e2 := congrArg List.length h2
          simpa using e2
        exact List.append_inj_left h2 e1
      rw [renderInt_inj i j h3]

theorem nospace_split : ∀ (A : List Char) (B : List Char) (o : Char)
    (A2 B2 : List Char) (o2 : Char),
    (∀ c ∈ A, c ≠ ' ') → (∀ c ∈ A2, c ≠ ' ') →
    A ++ ' ' :: o :: ' ' :: B = A2 ++ ' ' :: o2 :: ' ' :: B2 →
    A = A2 ∧ o = o2 ∧ B = B2 := by
  intro A
  induction A with
  | nil =>
    intro B o A2 B2 o2 _ hA2 h
    cases A2 with
    | nil =>
      rw [List.nil_append, List.nil_append] at h
      injection h with _ h2
      injection h2 with h3 h4
      injection h4 with _ h5
      exact ⟨rfl, h3, h5⟩
    | cons c2 t2 =>
      rw [List.nil_append, List.cons_append] at h
      injection h with h1 _
      exact absurd h1.symm (hA2 c2 (List.mem_cons_self _ _))
  | cons c t ih =>
    intro B o A2 B2 o2 hA hA2 h
    cases A2 with
    | nil =>
      rw [List.nil_append, List.cons_append] at h
      injection h with h1 _
      exact absurd h1 (hA c (List.mem_cons_self _ _))
    | cons c2 t2 =>
      rw [List.cons_append, List.cons_append] at h
      injection h with h1 h2
      obtain ⟨hA3, ho, hB⟩ := ih B o t2 B2 o2
        (fun x hx => hA x (List.mem_cons_of_mem _ hx))
        (fun x hx => hA2 x (List.mem_cons_of_mem _ hx)) h2
      exact ⟨by rw [h1, hA3], ho, hB⟩

theorem binKey_char (x y : Value) (op : String) (o : Char) (hto : op.toList = [o]) :
    binKey x op y = dbgValue x ++ ' ' :: o :: ' ' :: dbgValue y := by
  rw [binKey, hto, show (" ".toList : List Char) = [' '] from rfl]
  simp [List.append_assoc]

theorem binKeyC_inj (a b a2 b2 : Option Int) (o o2 : Char)
    (h : dbgValue (resultOf a) ++ ' ' :: o :: ' ' :: dbgValue (resultOf b) =
      dbgValue (resultOf a2) ++ ' ' :: o2 :: ' ' :: dbgValue (resultOf b2)) :
    resultOf a = resultOf a2 ∧ o = o2 ∧ resultOf b = resultOf b2 := by
  obtain ⟨h1, h2, h3⟩ := nospace_split _ _ _ _ _ _
    (dbg_resultOf_nospace a) (dbg_resultOf_nospace a2) h
  exact ⟨dbg_resultOf_inj a a2 h1, h2, dbg_resultOf_inj b b2 h3⟩

theorem binKey_inj (a b a2 b2 : Option Int) (op op2 : String)
    (hop : op = "+" ∨ op = "-" ∨ op = "*" ∨ op = "/")
    (hop2 : op2 = "+" ∨ op2 = "-" ∨ op2 = "*" ∨ op2 = "/")
    (h : binKey (resultOf a) op (resultOf b) = binKey (resultOf a2) op2 (resultOf b2)) :
    resultOf a = resultOf a2 ∧ op = op2 ∧ resultOf b = resultOf b2 := by
  obtain rfl | rfl | rfl | rfl := hop <;> obtain rfl | rfl | rfl | rfl := hop2 <;>
    rw [binKey_char _ _ _ _ rfl, binKey_char _ _ _ _ rfl] at h <;>
    obtain ⟨h1, h2, h3⟩ := binKeyC_inj _ _ _ _ _ _ h <;>
    first
      | exact ⟨h1, rfl, h3⟩
      | exact absurd h2 (by decide)

/-! ### Cache soundness on arithmetic keys -/

theorem lookupA_upsert {κ α : Type} [DecidableEq κ] :
    ∀ (c : List (κ × α)) (k : κ) (v : α) (k2 : κ),
      lookupA (upsertA c k v) k2 = if k = k2 then some v else lookupA c k2 := by
  intro c
  induction c with
  | nil => intro k v k2; rfl
  | cons p t ih =>
    intro k v k2
    obtain ⟨k3, v3⟩ := p
    rw [upsertA]
    by_cases h3 : k3 = k
    · rw [if_pos h3, lookupA]
      by_cases hk : k = k2
      · rw [if_pos hk, if_pos hk]
      · rw [if_neg hk, if_neg hk, lookupA, if_neg (by rw [h3]; exact hk)]
    · rw [if_neg h3, lookupA]
      by_cases h32 : k3 = k2
      · rw [if_pos h32,
          if_neg (show ¬(k = k2) from fun hh => h3 (by rw [hh, ← h32])),
          lookupA, if_pos h32]
      · rw [if_neg h32, ih]
        by_cases hk : k = k2
        · rw [if_pos hk, if_pos hk]
        · rw [if_neg hk, if_neg hk, lookupA, if_neg h32]

theorem arithCacheSound_nil : ArithCacheSound [] := by
  intro a b op v _ hl
  rw [lookupA] at hl
  exact Option.noConfusion hl

theorem arithCacheSound_upsert (c : List (List Char × Value)) (hc : ArithCacheSound c)
    (a0 b0 : Option Int) (op0 : String)
    (hop0 : op0 = "+" ∨ op0 = "-" ∨ op0 = "*" ∨ op0 = "/") :
    ArithCacheSound (upsertA c (binKey (resultOf a0) op0 (resultOf b0))
      (opSemV a0 op0 b0)) := by
  intro a b op v hop hl
  rw [lookupA_upsert] at hl
  by_cases he : binKey (resultOf a0) op0 (resultOf b0) = binKey (resultOf a) op (resultOf b)
  · rw [if_pos he] at hl
    injection hl with hv
    obtain ⟨ha, hopeq, hb⟩ := binKey_inj a0 b0 a b op0 op hop0 hop he
    rw [← hv, resultOf_inj _ _ ha, resultOf_inj _ _ hb, hopeq]
  · rw [if_neg he] at hl
    exact hc a b op v hop hl



/-! ### Arithmetic evaluation refines the integer reference semantics -/

theorem binOpResult_spec (a b : Option Int) (op : String) (st : InterpState)
    (hop : op = "+" ∨ op = "-" ∨ op = "*" ∨ op = "/") :
    (binOpResult (resultOf a) op (resultOf b) st).1 = opSemV a op b ∧
    (binOpResult (resultOf a) op (resultOf b) st).2.cache = st.cache ∧
    (binOpResult (resultOf a) op (resultOf b) st).2.cacheOn = st.cacheOn := by
  obtain rfl | rfl | rfl | rfl := hop
  · cases a <;> cases b <;> exact ⟨rfl, rfl, rfl⟩
  · cases a <;> cases b <;> exact ⟨rfl, rfl, rfl⟩
  · cases a <;> cases b <;> exact ⟨rfl, rfl, rfl⟩
  · cases a with
    | none => cases b <;> exact ⟨rfl, rfl, rfl⟩
    | some i =>
      cases b with
      | none => exact ⟨rfl, rfl, rfl⟩
      | some j =>
        by_cases hj : j = 0
        · subst hj
          exact ⟨rfl, rfl, rfl⟩
        · refine ⟨?_, ?_, ?_⟩
          · show (if j ≠ 0 then ((Value.num (Int.tdiv i j), st) : Value × InterpState)
                else (Value.null, pushDiag st "Error: Division by zero".toList)).1 =
              (if j ≠ 0 then Value.num (Int.tdiv i j) else Value.null)
            rw [if_pos hj, if_pos hj]
          · show (if j ≠ 0 then ((Value.num (Int.tdiv i j), st) : Value × InterpState)
                else (Value.null, pushDiag st "Error: Division by zero".toList)).2.cache =
              st.cache
            rw [if_pos hj]
          · show (if j ≠ 0 then ((Value.num (Int.tdiv i j), st) : Value × InterpState)
                else (Value.null, pushDiag st "Error: Division by zero".toList)).2.cacheOn =
              st.cacheOn
            rw [if_pos hj]

theorem refEval_bin_unfold (l r : AST) (op : String) :
    refEval (AST.binaryOp l op r) =
      Option.bind (refEval l) (fun a => Option.bind (refEval r) (fun b =>
        if op = "+" then some (a + b)
        else if op = "-" then some (a - b)
        else if op = "*" then some (a * b)
        else if op = "/" then (if b ≠ 0 then some (Int.tdiv a b) else none)
        else none)) := rfl

theorem resultOf_refEval_bin (l r : AST) (op : String)
    (hop : op = "+" ∨ op = "-" ∨ op = "*" ∨ op = "/") :
    resultOf (refEval (AST.binaryOp l op r)) = opSemV (refEval l) op (refEval r) := by
  rw [refEval_bin_unfold]
  cases hL : refEval l with
  | none => rfl
  | some a =>
    cases hR : refEval r with
    | none => rfl
    | some b =>
      obtain rfl | rfl | rfl | rfl := hop
      · rfl
      · rfl
      · rfl
      · by_cases hb : b = 0
        · subst hb
          rfl
        · show resultOf (if b ≠ 0 then some (Int.tdiv a b) else none) =
            (if b ≠ 0 then Value.num (Int.tdiv a b) else Value.null)
          rw [if_pos hb, if_pos hb]
          rfl

theorem ebo_unfold_fields (fuel : Nat) (st : InterpState) (lv opv rv : Value)
    (ls : List (String × Value)) :
    evaluate_binary_op (fuel + 1) st (Value.obj (Fields.cons "left" lv
      (Fields.cons "op" opv (Fields.cons "right" rv Fields.nil)))) ls =
    Bind.bind (resolve_value fuel st lv ls) (fun xl =>
    Bind.bind (resolve_value fuel xl.2 rv ls) (fun xr =>
    Bind.bind (unwrapO (as_str opv)) (fun op2 =>
    eboCore xl.1 op2 xr.1 xr.2))) := rfl

theorem isIntArith_shape (e : AST) (h : isIntArith e = true) :
    (∃ n, e = AST.integer n) ∨
    (∃ l op r, e = AST.binaryOp l op r ∧
      (op = "+" ∨ op = "-" ∨ op = "*" ∨ op = "/") ∧
      isIntArith l = true ∧ isIntArith r = true) := by
  cases e <;>
    first
      | exact Or.inl ⟨_, rfl⟩
      | refine Or.inr ⟨_, _, _, rfl,
          (by simp [isIntArith] at h; tauto),
          (by simp [isIntArith] at h; tauto),
          (by simp [isIntArith] at h; tauto)⟩
      | exact Bool.noConfusion h

/-- C2 amended: for every expression built only from integer literals
and the four arithmetic operators whose subexpression values all fit in
`i64` (`noOverflow` — on that domain the source's plain `i64`
operations are exact under either build profile), the evaluator's
`resolve_value` yields exactly the integer reference semantics — exact
addition, subtraction and multiplication, truncating integer division,
and the neutral `Null` on division by zero — whenever the memoization
cache is sound on arithmetic keys (the empty cache is, and evaluation
preserves the property).  This replaces the claim's floating-point
semantics, which the embedded run refutes on `write 10 / 4`; outside
the `noOverflow` domain the source's behaviour is build-profile
dependent (debug overflow panic versus release wrapping), so no
profile-independent strengthening is available. -/
theorem c2_amended_integer_arithmetic : ∀ (fuel : Nat) (e : AST) (st : InterpState)
    (ls : List (String × Value)),
    isIntArith e = true → noOverflow e = true → arithFuel e ≤ fuel →
    ArithCacheSound st.cache →
    ∃ st2 : InterpState,
      resolve_value fuel st (encode e) ls = .ok (resultOf (refEval e), st2) ∧
      ArithCacheSound st2.cache := by
  intro fuel
  induction fuel using Nat.strong_induction_on with
  | _ fuel ih =>
    intro e st ls hint hno hfl hc
    rcases isIntArith_shape e hint with ⟨n, rfl⟩ | ⟨l, op, r, rfl, hop, hl, hr⟩
    · obtain ⟨f1, rfl⟩ : ∃ f1, fuel = f1 + 1 := by
        have h1 : arithFuel (AST.integer n) = 1 := rfl
        exact ⟨fuel - 1, by omega⟩
      exact ⟨st, rfl, hc⟩
    · have haf : arithFuel (AST.binaryOp l op r) =
          max (arithFuel l) (arithFuel r) + 2 := rfl
      have hml := Nat.le_max_left (arithFuel l) (arithFuel r)
      have hmr2 := Nat.le_max_right (arithFuel l) (arithFuel r)
      have hnol : noOverflow l = true := by
        have h2 := hno
        simp only [noOverflow, Bool.and_eq_true] at h2
        tauto
      have hnor : noOverflow r = true := by
        have h2 := hno
        simp only [noOverflow, Bool.and_eq_true] at h2
        tauto
      obtain ⟨f2, rfl⟩ : ∃ f2, fuel = f2 + 1 + 1 := ⟨fuel - 2, by omega⟩
      have hdisp : resolve_value (f2 + 1 + 1) st (encode (AST.binaryOp l op r)) ls =
          evaluate_binary_op (f2 + 1) st (Value.obj (Fields.cons "left" (encode l)
            (Fields.cons "op" (Value.str op)
              (Fields.cons "right" (encode r) Fields.nil)))) ls := rfl
      obtain ⟨st1, hLv, hc1⟩ := ih f2 (by omega) l st ls hl hnol (by omega) hc
      obtain ⟨st2, hRv, hc2⟩ := ih f2 (by omega) r st1 ls hr hnor (by omega) hc1
      have hebo : evaluate_binary_op (f2 + 1) st (Value.obj (Fields.cons "left" (encode l)
          (Fields.cons "op" (Value.str op)
            (Fields.cons "right" (encode r) Fields.nil)))) ls =
          eboCore (resultOf (refEval l)) op (resultOf (refEval r)) st2 := by
        rw [ebo_unfold_fields, hLv]
        simp only [exbind_ok]
        rw [hRv]
        simp only [exbind_ok,
          show unwrapO (as_str (Value.str op)) = Except.ok op from rfl]
      cases hcg : cacheGet st2 (binKey (resultOf (refEval l)) op (resultOf (refEval r))) with
      | some cached =>
        have hcore : eboCore (resultOf (refEval l)) op (resultOf (refEval r)) st2 =
            .ok (cached, st2) := by
          simp only [eboCore, hcg]
        have hval : cached = opSemV (refEval l) op (refEval r) := by
          rw [cacheGet] at hcg
          by_cases hon : st2.cacheOn = true
          · rw [if_pos hon] at hcg
            exact hc2 (refEval l) (refEval r) op cached hop hcg
          · rw [if_neg hon] at hcg
            exact Option.noConfusion hcg
        refine ⟨st2, ?_, hc2⟩
        rw [hdisp, hebo, hcore, hval, ← resultOf_refEval_bin l r op hop]
      | none =>
        have hcore : eboCore (resultOf (refEval l)) op (resultOf (refEval r)) st2 =
            .ok ((binOpResult (resultOf (refEval l)) op (resultOf (refEval r)) st2).1,
              cachePut (binOpResult (resultOf (refEval l)) op (resultOf (refEval r)) st2).2
                (binKey (resultOf (refEval l)) op (resultOf (refEval r)))
                (binOpResult (resultOf (refEval l)) op (resultOf (refEval r)) st2).1) := by
          simp only [eboCore, hcg]
        obtain ⟨hb1, hb2, hb3⟩ := binOpResult_spec (refEval l) (refEval r) op st2 hop
        refine ⟨cachePut (binOpResult (resultOf (refEval l)) op (resultOf (refEval r)) st2).2
          (binKey (resultOf (refEval l)) op (resultOf (refEval r)))
          (binOpResult (resultOf (refEval l)) op (resultOf (refEval r)) st2).1, ?_, ?_⟩
        · rw [hdisp, hebo, hcore, hb1, ← resultOf_refEval_bin l r op hop]
        · rw [cachePut]
          by_cases hon : (binOpResult (resultOf (refEval l)) op
              (resultOf (refEval r)) st2).2.cacheOn = true
          · rw [if_pos hon]
            show ArithCacheSound (upsertA
              (binOpResult (resultOf (refEval l)) op (resultOf (refEval r)) st2).2.cache
              (binKey (resultOf (refEval l)) op (resultOf (refEval r)))
              (binOpResult (resultOf (refEval l)) op (resultOf (refEval r)) st2).1)
            rw [hb2, hb1]
            exact arithCacheSound_upsert st2.cache hc2 (refEval l) (refEval r) op hop
          · rw [if_neg hon]
            show ArithCacheSound
              (binOpResult (resultOf (refEval l)) op (resultOf (refEval r)) st2).2.cache
            rw [hb2]
            exact hc2

/-- Witness for the amended C2 at `2 + 3 * 4` (reference value 14) on
the initial state with its empty, trivially sound cache. -/
theorem c2_amended_witness :
    (isIntArith (AST.binaryOp (AST.integer 2) "+"
        (AST.binaryOp (AST.integer 3) "*" (AST.integer 4))) = true ∧
      noOverflow (AST.binaryOp (AST.integer 2) "+"
        (AST.binaryOp (AST.integer 3) "*" (AST.integer 4))) = true ∧
      arithFuel (AST.binaryOp (AST.integer 2) "+"
        (AST.binaryOp (AST.integer 3) "*" (AST.integer 4))) ≤ 5 ∧
      refEval (AST.binaryOp (AST.integer 2) "+"
        (AST.binaryOp (AST.integer 3) "*" (AST.integer 4))) = Option.some 14) ∧
    (∃ st2 : InterpState, resolve_value 5 (initState true)
        (encode (AST.binaryOp (AST.integer 2) "+"
          (AST.binaryOp (AST.integer 3) "*" (AST.integer 4)))) [] =
        .ok (resultOf (refEval (AST.binaryOp (AST.integer 2) "+"
          (AST.binaryOp (AST.integer 3) "*" (AST.integer 4)))), st2) ∧
      ArithCacheSound st2.cache) :=
  ⟨⟨by decide, by decide, by decide, by decide⟩,
    c2_amended_integer_arithmetic 5
      (AST.binaryOp (AST.integer 2) "+" (AST.binaryOp (AST.integer 3) "*" (AST.integer 4)))
      (initState true) [] (by decide) (by decide) (by decide) arithCacheSound_nil⟩

/-- C2 counterexample: on `write 10 / 4` — integer literals only — the
evaluator prints `2` (truncating integer division), while the claimed
floating-point semantics (exact over rationals here) gives `5/2`; the
two disagree, refuting the floating-point reading of the evaluator. -/
theorem c2_counterexample_truncating_division :
    parse_program "write 10 / 4".toList = .ok (.program (toASTList
      [AST.write (toASTList [AST.binaryOp (AST.integer 10) "/" (AST.integer 4)])])) ∧
    runOutput "write 10 / 4".toList = .ok ["2".toList] ∧
    refEval (AST.binaryOp (AST.integer 10) "/" (AST.integer 4)) = Option.some 2 ∧
    ratEval (AST.binaryOp (AST.integer 10) "/" (AST.integer 4)) = Option.some (mkRat 5 2) ∧
    ((2 : Rat) ≠ mkRat 5 2) := by
  refine ⟨by decide, by decide, by decide, ?_, by decide⟩
  have h4 : ((4 : Int) : Rat) ≠ 0 := by norm_num
  have hre : ratEval (AST.binaryOp (AST.integer 10) "/" (AST.integer 4)) =
      some (((10 : Int) : Rat) / ((4 : Int) : Rat)) := by
    show (if ((4 : Int) : Rat) ≠ 0
        then some (((10 : Int) : Rat) / ((4 : Int) : Rat)) else none) =
      some (((10 : Int) : Rat) / ((4 : Int) : Rat))
    rw [if_pos h4]
  rw [hre]
  norm_num [Rat.mkRat_eq_div]


end Glint
